import Mathlib

/-!
# Verification of the DEQAR client data-normalization core (EQAR/deqar-tools)

Shallow embedding, in Lean 4, of the record-linkage and structural-normalization
core of the `deqar-tools` repository:

* the QF-EHEA level-set tokenizer (`EqarApi.create_qf_ehea_level_set` /
  `QfEheaLevelSet.__init__` and `__str__` in `deqarclient.py`),
* the founding/closing date validation, the parent-institution reference
  parsing, the identifier handling and the name sanity checks of
  `NewInstitution.__init__` (`deqarclient.py`),
* the URL normalization `NewInstitution._url_normalise` (`deqarclient.py`),
* the core-domain canonicalizer `DomainChecker.core_domain` (`deqarclient.py`);
  the embedded `tldextract` suffix lookup is parameterized by an explicit
  public-suffix list (the library ships its own snapshot of the list),
* the report fingerprint grouper (`DuplicateSets` and the fetch loop of
  `findDuplicateReports.py`).

Python strings are modelled as Lean `String`/`List Char`; dicts of CSV input
columns as association lists `List (String × String)`; Python exceptions as
`Except String`; `warnings.warn(DataWarning(...))` calls as an accumulated
list of `Warn` values.  Reference data (countries, QF-EHEA levels,
hierarchical relationship types) is the data served by the repository's own
mock API server in `test-deqarclient.py`.  Network collaborators
(`requests.head` redirect resolution) are explicit function parameters.
-/

/-! ## Character class helpers

Python's `re` character classes, restricted to the ASCII range that the
repository's data actually uses. -/

/-- `[A-Za-z0-9]` — the alphanumeric class used by the level-set splitter. -/
def isAlnum (c : Char) : Bool :=
  ('A' ≤ c && c ≤ 'Z') || ('a' ≤ c && c ≤ 'z') || ('0' ≤ c && c ≤ '9')

/-- Python regex `\s` (ASCII part): space, tab, newline, carriage return,
vertical tab, form feed. -/
def isPyWs (c : Char) : Bool :=
  c = ' ' || c = '\t' || c = '\n' || c = '\r' || c = '\x0b' || c = '\x0c'

/-- `[0-9]`. -/
def isDigitC (c : Char) : Bool := '0' ≤ c && c ≤ '9'

/-- ASCII lower-casing, as Python `str.lower()` acts on ASCII data. -/
def asciiLower (c : Char) : Char :=
  if 'A' ≤ c ∧ c ≤ 'Z' then Char.ofNat (c.toNat + 32) else c

/-- ASCII upper-casing, as Python `str.upper()` acts on ASCII data. -/
def asciiUpper (c : Char) : Char :=
  if 'a' ≤ c ∧ c ≤ 'z' then Char.ofNat (c.toNat - 32) else c

/-- Python `str.strip()` (no argument): remove leading and trailing
whitespace. -/
def pyStrip (s : String) : String :=
  ⟨(s.data.dropWhile isPyWs).reverse.dropWhile isPyWs |>.reverse⟩

/-- Decimal value of a digit string, as Python `int()` on a `[0-9]+` match. -/
def natOfDigits (l : List Char) : Nat :=
  l.foldl (fun acc c => acc * 10 + (c.toNat - 48)) 0

/-! ## QF-EHEA levels (`EqarApi.QfEheaLevels`)

The reference enumeration, as served by `/adminapi/v1/select/qf_ehea_level/`
(mocked identically in `test-deqarclient.py`). -/

/-- One QF-EHEA level reference: `{id, code, level}`. -/
structure Level where
  id : Nat
  code : Nat
  level : String
deriving DecidableEq, Repr

/-- The fixed level enumeration (codes 0–3 = short/first/second/third cycle). -/
def qfEheaLevels : List Level :=
  [⟨1, 0, "short cycle"⟩, ⟨2, 1, "first cycle"⟩,
   ⟨3, 2, "second cycle"⟩, ⟨4, 3, "third cycle"⟩]

/-- `QfEheaLevels.get` applied to a numeric code (the only way the tokenizer
calls it): linear scan matching on `code`. -/
def levelsGet (code : Nat) : Option Level :=
  qfEheaLevels.find? (fun l => l.code = code)

/-! ## Level-set tokenizer (`QfEheaLevelSet.__init__`)

The constructor strips `" ,.\n\r\t\v\f"` from both ends of the input, splits
on `\s*[^A-Za-z0-9]\s*` (each separator consumes one non-alphanumeric
character together with adjacent whitespace), and prefix-matches every token
against `([01235678]|cycle|short|first|second|secound|third)`. -/

/-- The characters stripped from both ends of the input string
(`string.strip(" ,.\n\r\t\v\f")`). -/
def levelStripChars : List Char :=
  [' ', ',', '.', '\n', '\r', '\t', '\x0b', '\x0c']

/-- `string.strip(" ,.\n\r\t\v\f")`. -/
def levelStrip (l : List Char) : List Char :=
  (l.dropWhile (· ∈ levelStripChars)).reverse.dropWhile (· ∈ levelStripChars)
    |>.reverse

/-- Consume one separator match of `\s*[^A-Za-z0-9]\s*` at the head of `l`
(the head is known to be non-alphanumeric): a maximal whitespace run, then —
if a non-whitespace non-alphanumeric symbol follows — that symbol and the
maximal whitespace run after it. -/
def consumeSep (l : List Char) : List Char :=
  match l with
  | [] => []
  | c :: r =>
    if isPyWs c then
      let r1 := r.dropWhile isPyWs
      match r1 with
      | [] => []
      | d :: r2 => if isAlnum d then r1 else r2.dropWhile isPyWs
    else r.dropWhile isPyWs

theorem consumeSep_length (l : List Char) (h : l ≠ []) :
    (consumeSep l).length < l.length := by
  match l with
  | [] => exact absurd rfl h
  | c :: r =>
    unfold consumeSep
    by_cases hws : isPyWs c
    · simp only [hws, if_true]
      have h1 : (r.dropWhile isPyWs).length ≤ r.length := by
        simpa using List.IsSuffix.length_le (List.dropWhile_suffix isPyWs)
      cases hr1 : r.dropWhile isPyWs with
      | nil => simp
      | cons d r2 =>
        by_cases hd : isAlnum d
        · simp only [hd, if_true]
          rw [hr1] at h1
          simp only [List.length_cons] at h1 ⊢
          omega
        · simp only [hd, Bool.false_eq_true, if_false]
          have h2 : (r2.dropWhile isPyWs).length ≤ r2.length := by
            simpa using List.IsSuffix.length_le (List.dropWhile_suffix isPyWs)
          rw [hr1] at h1
          simp only [List.length_cons] at h1 ⊢
          omega
    · simp only [hws, Bool.false_eq_true, if_false]
      have h1 : (r.dropWhile isPyWs).length ≤ r.length := by
        simpa using List.IsSuffix.length_le (List.dropWhile_suffix isPyWs)
      simp only [List.length_cons]
      omega

/-- Fuelled worker for the `re.split` scan: accumulate alphanumeric token
characters; a non-alphanumeric character ends the current token and starts a
separator.  `fuel ≥ l.length` suffices, so the fuel branch is unreachable. -/
def splitGo (fuel : Nat) (l : List Char) (tok : List Char) :
    List (List Char) :=
  match fuel with
  | 0 => [tok.reverse]
  | fuel + 1 =>
    match l with
    | [] => [tok.reverse]
    | c :: r =>
      if isAlnum c then splitGo fuel r (c :: tok)
      else tok.reverse :: splitGo fuel (consumeSep (c :: r)) []

/-- `re.split(r'\s*[^A-Za-z0-9]\s*', s)`, for `s` already stripped. -/
def splitTokens (l : List Char) : List (List Char) :=
  splitGo (l.length + 1) l []

/-- Result of prefix-matching one token against
`([01235678]|cycle|short|first|second|secound|third)` and applying the
digit shift (`int(m) - 5` for digits over 4) or the keyword table. -/
inductive TokMatch where
  | code (c : Nat)
  | cycleTok
  | unmatched
deriving DecidableEq, Repr

/-- The cycle keyword table, in the source's dict insertion order. -/
def levelKeywords : List (List Char × Nat) :=
  [("short".data, 0), ("first".data, 1), ("second".data, 2),
   ("secound".data, 2), ("third".data, 3)]

/-- Prefix-match one token: a leading digit in `[01235678]` first, then the
literal `cycle`, then the keywords in table order. -/
def tokenMatch (tok : List Char) : TokMatch :=
  match tok with
  | [] => .unmatched
  | c :: _ =>
    if c = '0' ∨ c = '1' ∨ c = '2' ∨ c = '3' then .code (c.toNat - 48)
    else if c = '5' ∨ c = '6' ∨ c = '7' ∨ c = '8' then .code (c.toNat - 48 - 5)
    else if "cycle".data.isPrefixOf tok then .cycleTok
    else
      match levelKeywords.find? (fun kw => kw.1.isPrefixOf tok) with
      | some kw => .code kw.2
      | none => .unmatched

/-- Worker over the token list, mirroring the constructor's `for` loop:
collect recognized codes into the `recognised` set; on an unmatched token
fail if `strict`, otherwise drop it. -/
def levelCodesGo (strict : Bool) (toks : List (List Char))
    (acc : List Nat) : Except String (List Nat) :=
  match toks with
  | [] => .ok acc
  | t :: rest =>
    match tokenMatch t with
    | .code c => levelCodesGo strict rest (acc ++ [c])
    | .cycleTok => levelCodesGo strict rest acc
    | .unmatched =>
      if strict then
        .error ("  [" ++ ⟨t⟩ ++ "] : QF-EHEA level not recognised, ignored.")
      else levelCodesGo strict rest acc

/-- The `recognised` Python set of small integer codes, iterated in ascending
order (CPython sets of integers 0–3 iterate in increasing slot order). -/
def sortedDedup (l : List Nat) : List Nat :=
  l.dedup.insertionSort (· ≤ ·)

/-- `QfEheaLevelSet(api, string, strict)`: the resulting list of Level
references, or the `DataError` message raised on an unrecognized token in
strict mode. -/
def parseLevelSet (strict : Bool) (s : String) : Except String (List Level) :=
  match levelCodesGo strict (splitTokens (levelStrip s.data)) [] with
  | .error e => .error e
  | .ok codes => .ok ((sortedDedup codes).filterMap levelsGet)

/-- `QfEheaLevelSet.__str__`: `"QF-EHEA: "` followed by the levels' ids + 4
(EQF numbering, since `id = code + 1`), joined by `"-"`. -/
def levelSetStr (levels : List Level) : String :=
  "QF-EHEA: " ++ String.intercalate "-" (levels.map (fun l => toString (l.id + 4)))


/-! ## Founding/closing date validation (`NewInstitution.__init__`)

The source validates date columns against the regex
`^\s*([0-9]{4})(-(?:1[012]|0?[0-9])-(?:31|30|[012]?[0-9]))?\s*$`
and raises `DataError("Malformed founding_date/closing_date: ...")` on
failure.  A year-only founding date is stored as `YYYY-01-01`, a year-only
closing date as `YYYY-12-31`; otherwise `match[1] + match[2]` is stored
verbatim.  The matchers below hand-compile the regex's backtracking, which
is finite and deterministic. -/

/-- Match the month alternation `1[012]|0?[0-9]` followed by the literal
`-`; returns the month characters and the remainder after the `-`.  The
alternation is tried in regex order; since the separator `-` is not a digit,
the backtracking collapses to the first-match cases below. -/
def matchMonth : List Char → Option (List Char × List Char)
  | '1' :: '0' :: '-' :: r => some (['1', '0'], r)
  | '1' :: '1' :: '-' :: r => some (['1', '1'], r)
  | '1' :: '2' :: '-' :: r => some (['1', '2'], r)
  | '0' :: c :: '-' :: r => if isDigitC c then some (['0', c], r) else none
  | c :: '-' :: r => if isDigitC c then some ([c], r) else none
  | _ => none

/-- The `[012]?[0-9]` alternative of the day, followed by `\s*$` (greedy:
two digits first, then one). -/
def dayAlt : List Char → Option (List Char)
  | a :: b :: r =>
    if (a = '0' ∨ a = '1' ∨ a = '2') ∧ isDigitC b ∧ r.all isPyWs then
      some [a, b]
    else if isDigitC a ∧ (b :: r).all isPyWs then some [a]
    else none
  | [a] => if isDigitC a then some [a] else none
  | [] => none

/-- Match the day alternation `31|30|[012]?[0-9]` followed by `\s*$`. -/
def matchDay : List Char → Option (List Char)
  | '3' :: '1' :: r => if r.all isPyWs then some ['3', '1'] else dayAlt ('3' :: '1' :: r)
  | '3' :: '0' :: r => if r.all isPyWs then some ['3', '0'] else dayAlt ('3' :: '0' :: r)
  | l => dayAlt l

/-- The whole date regex: returns the year characters (group 1) and, when
the optional `-month-day` group is present, its characters (group 2,
including both `-` separators). -/
def dateMatch (s : String) : Option (List Char × Option (List Char)) :=
  match s.data.dropWhile isPyWs with
  | y1 :: y2 :: y3 :: y4 :: rest =>
    if [y1, y2, y3, y4].all isDigitC then
      if rest.all isPyWs then some ([y1, y2, y3, y4], none)
      else
        match rest with
        | '-' :: r1 =>
          match matchMonth r1 with
          | some (m, r2) =>
            match matchDay r2 with
            | some d => some ([y1, y2, y3, y4], some ('-' :: m ++ '-' :: d))
            | none => none
          | none => none
        | _ => none
    else none
  | _ => none

/-- The `founding_date` branch: year-only dates default to `-01-01`,
otherwise `match[1] + match[2]` is stored; no match raises the
`Malformed founding_date` DataError. -/
def processFoundingDate (s : String) : Except String String :=
  match dateMatch s with
  | some (y, none) => .ok (⟨y⟩ ++ "-01-01")
  | some (y, some md) => .ok (⟨y⟩ ++ ⟨md⟩)
  | none => .error ("Malformed founding_date: [" ++ s ++ "]")

/-- The `closing_date` branch: year-only dates default to `-12-31`. -/
def processClosingDate (s : String) : Except String String :=
  match dateMatch s with
  | some (y, none) => .ok (⟨y⟩ ++ "-12-31")
  | some (y, some md) => .ok (⟨y⟩ ++ ⟨md⟩)
  | none => .error ("Malformed closing_date: [" ++ s ++ "]")

/-! ## Parent institution reference (`NewInstitution.__init__`)

The source applies `re.match('\s*(DEQARINST)?([0-9]+)\s*', value.upper())` —
an unanchored prefix match — and stores `int(match.group(2))`. -/

/-- `re.match('\s*(DEQARINST)?([0-9]+)\s*', ...)` on the upper-cased value:
skip leading whitespace, optionally consume the literal `DEQARINST` (the
optional group backtracks to empty only if no digit follows, in which case a
digit is required immediately — which then fails on `D`), then read the
maximal digit run.  Trailing input after `\s*` is ignored (prefix match). -/
def parentMatch (s : String) : Option Nat :=
  let u := (s.data.map asciiUpper).dropWhile isPyWs
  let afterPre :=
    if "DEQARINST".data.isPrefixOf u then u.drop 9 else u
  match afterPre with
  | c :: _ =>
    if isDigitC c then some (natOfDigits (afterPre.takeWhile isDigitC))
    else none
  | [] => none

/-! ## Hierarchical relationship types (`EqarApi.HierarchicalTypes`)

Reference list from `/adminapi/v1/select/institution_hierarchical_relationship_types/`
(mocked identically in `test-deqarclient.py`). -/

/-- One relationship type reference: `{id, type}`. -/
structure HType where
  id : Nat
  type : String
deriving DecidableEq, Repr

/-- The mock reference list of relationship types. -/
def hierarchicalTypes : List HType :=
  [⟨1, "consortium"⟩, ⟨2, "faculty"⟩, ⟨3, "independent faculty or school"⟩]

/-- `HierarchicalTypes.get`: a digit string is converted to an integer and
compared against `id`; otherwise the value is compared against `id` and
`type`. -/
def hTypesGet (types : List HType) (which : String) : Option HType :=
  let asNum : Option Nat :=
    if which ≠ "" ∧ which.data.all isDigitC then some (natOfDigits which.data)
    else none
  types.find? (fun t =>
    (match asNum with
     | some n => n = t.id
     | none => which = t.type))

/-! ## Countries (`EqarApi.Countries`)

Reference list from `/adminapi/v1/select/country/` (mocked identically in
`test-deqarclient.py`). -/

/-- One country reference record. -/
structure Country where
  id : Nat
  iso2 : String
  iso3 : String
  name_english : String
deriving DecidableEq, Repr

/-- The mock reference country list. -/
def mockCountries : List Country :=
  [⟨10, "AT", "AUT", "Austria"⟩, ⟨17, "BE", "BEL", "Belgium"⟩,
   ⟨64, "DE", "DEU", "Germany"⟩, ⟨157, "SI", "SLO", "Slovenia"⟩]

/-- `Countries.get`: a digit string is converted to an integer and compared
against `id`; otherwise the value is compared against the two ISO codes. -/
def countriesGet (cs : List Country) (which : String) : Option Country :=
  let asNum : Option Nat :=
    if which ≠ "" ∧ which.data.all isDigitC then some (natOfDigits which.data)
    else none
  cs.find? (fun c =>
    (match asNum with
     | some n => n = c.id
     | none => which = c.iso2 ∨ which = c.iso3))

/-! ## URL normalization (`NewInstitution._url_normalise`)

Regex `^\s*([a-z0-9]+://)?([^/]+)(/.*)?$` (case-insensitive): optional
scheme (defaulting to `http://`), host up to the first `/`, path defaulting
to `/`; scheme and host are lower-cased.  The `requests.head` redirect
resolution is an external collaborator, modelled by a `resolver` parameter:
`some u` means the request succeeded with final URL `u` (adopted verbatim),
`none` covers both the connection-error and the non-2xx branches, which fall
back to the statically normalized URL. -/

/-- `[a-z0-9]` with `re.IGNORECASE`, i.e. `[A-Za-z0-9]`: same as `isAlnum`. -/
def isSchemeChar (c : Char) : Bool := isAlnum c

/-- Static part of `_url_normalise`: split off an optional `scheme://`, a
non-empty host up to the first `/`, and the path; lower-case scheme and
host; fail (DataError `not a valid http/https URL`) when the host would be
empty. -/
def urlNormaliseStatic (website : String) : Except String String :=
  let l := website.data.dropWhile isPyWs
  let schemeSplit : Option (List Char × List Char) :=
    match l.takeWhile isSchemeChar, l.dropWhile isSchemeChar with
    | run, ':' :: '/' :: '/' :: rest =>
      if run ≠ [] then some (run ++ "://".data, rest) else none
    | _, _ => none
  let (protocol, hostPath) :=
    match schemeSplit with
    | some (p, rest) => (p, rest)
    | none => ("http://".data, l)
  let host := hostPath.takeWhile (· ≠ '/')
  let path := hostPath.dropWhile (· ≠ '/')
  if host = [] then
    .error ("[" ++ website ++ "] is not a valid http/https URL.")
  else
    .ok ⟨(protocol.map asciiLower) ++ (host.map asciiLower) ++
          (if path = [] then ['/'] else path)⟩

/-- `_url_normalise` with the redirect collaborator. -/
def urlNormalise (resolver : String → Option String) (website : String) :
    Except String String :=
  match urlNormaliseStatic website with
  | .error e => .error e
  | .ok url =>
    match resolver url with
    | some finalUrl => .ok finalUrl
    | none => .ok url

/-! ## Core domain canonicalizer (`DomainChecker.core_domain`)

`core_domain` runs `tldextract` (with the Public Suffix List) on the input
and returns `domain.suffix` lower-cased, raising a DataError when no known
suffix is found.  The extractor is embedded with an explicit public-suffix
list `psl` (a set of suffixes, each a list of labels): take the host part of
the URL (ignoring scheme, path, port, query and fragment), lower-case it,
split it on `.`, find the longest suffix of the label list contained in
`psl`, and return the label before it (empty if none) joined with the
suffix. -/

/-- Split a character list on `.` (like Python `host.split('.')`): always
returns at least one part; parts contain no dot. -/
def splitDots : List Char → List (List Char)
  | [] => [[]]
  | c :: r =>
    match splitDots r with
    | [] => [[c]]
    | h :: t => if c = '.' then [] :: h :: t else (c :: h) :: t

/-- Join label lists with `.` separators (inverse of `splitDots` on
dot-free parts). -/
def joinDots : List (List Char) → List Char
  | [] => []
  | [p] => p
  | p :: rest => p ++ '.' :: joinDots rest

/-- Strip a leading `scheme://` from a URL-ish character list. -/
def stripScheme (l : List Char) : List Char :=
  match l.dropWhile (· ≠ ':') with
  | ':' :: '/' :: '/' :: rest => rest
  | _ => l

/-- Characters ending the host component: path, port, query, fragment. -/
def isHostEnd (c : Char) : Bool := c = '/' || c = ':' || c = '?' || c = '#'

/-- The lower-cased host component of a URL-ish string. -/
def hostOf (l : List Char) : List Char :=
  ((stripScheme l).takeWhile (fun c => !isHostEnd c)).map asciiLower

/-- Largest `k` with `1 ≤ k ≤ bound` such that the last `k` labels form a
suffix listed in `psl` (longest-match public-suffix search), scanning from
`bound` down. -/
def bestSuffixFrom (psl : List (List (List Char))) (labels : List (List Char)) :
    Nat → Option Nat
  | 0 => none
  | k + 1 =>
    if labels.drop (labels.length - (k + 1)) ∈ psl then some (k + 1)
    else bestSuffixFrom psl labels k

/-- Longest public suffix of the label list, as a label count. -/
def bestSuffix (psl : List (List (List Char))) (labels : List (List Char)) :
    Option Nat :=
  bestSuffixFrom psl labels labels.length

/-- `DomainChecker.core_domain`: `f'{domain}.{suffix}'.lower()` when a known
suffix exists, `none` (the DataError branch) otherwise. -/
def coreDomain (psl : List (List (List Char))) (website : List Char) :
    Option (List Char) :=
  let labels := splitDots (hostOf website)
  match bestSuffix psl labels with
  | none => none
  | some k =>
    let n := labels.length
    let domain := if 1 ≤ n - k then labels.getD (n - k - 1) [] else []
    some (domain ++ '.' :: joinDots (labels.drop (n - k)))

/-- `core_domain` in `Except` form: the `DataError` raised when no suffix is
found. -/
def coreDomainE (psl : List (List (List Char))) (website : String) :
    Except String (List Char) :=
  match coreDomain psl website.data with
  | some d => .ok d
  | none => .error ("[" ++ website ++ "] is not a valid http/https URL.")

/-! ## Institution record creation (`NewInstitution.__init__`)

CSV input rows are association lists from column name to cell string.
`csv_coalesce(*args)` returns the first *truthy* raw value among the
columns, stripped; call sites test its truthiness again (a whitespace-only
cell strips to the falsy `''`).  `warnings.warn(DataWarning(...))` calls are
accumulated in a list.  The `transliterate` collaborator is a parameter
(`none` models the `ImportError` branch), as is the redirect `resolver`.

One conflation: a Python value of `False` stored by `csv_coalesce` into the
`resource`/`agency` fields (possible only when the column is present but
whitespace-only) is modelled as Lean `none`; no claim depends on it. -/

/-- CSV input row. -/
abbrev Row := List (String × String)

/-- First value bound to `k`. -/
def lookupKey (data : Row) (k : String) : Option String :=
  (data.find? (fun p => p.1 = k)).map (fun p => p.2)

/-- `k in data`. -/
def hasKey (data : Row) (k : String) : Bool :=
  (lookupKey data k).isSome

/-- `del data[k]`. -/
def removeKey (data : Row) (k : String) : Row :=
  data.filter (fun p => p.1 ≠ k)

/-- `csv_coalesce(*keys)` combined with the truthiness test its call sites
apply to the result: the first key whose raw value is non-empty, stripped —
and `none` also when that stripped value is empty. -/
def coalesceGuard (data : Row) (keys : List String) : Option String :=
  match keys.findSome? (fun k =>
    match lookupKey data k with
    | some v => if v = "" then none else some (pyStrip v)
    | none => none) with
  | some v => if v = "" then none else some v
  | none => none

/-- Non-fatal `DataWarning`s emitted through `warnings.warn`. -/
inductive Warn where
  | dupName (msg : String)
  | identifierAgencyAndResource (msg : String)
  | translitUnavailable (msg : String)
deriving DecidableEq, Repr

/-- One entry of `institution['names']`. -/
structure NameBlock where
  name_official : String
  name_english : Option String := none
  name_official_transliterated : Option String := none
  alternative_names : List String := []
  acronym : Option String := none
deriving DecidableEq, Repr

/-- One entry of `institution['countries']`. -/
structure CountryEntry where
  country : Nat
  city : Option String := none
deriving DecidableEq, Repr

/-- One entry of `institution['identifiers']`. -/
structure IdentifierEntry where
  identifier : String
  resource : Option String := none
  agency : Option String := none
deriving DecidableEq, Repr

/-- One entry of `institution['hierarchical_parent']`. -/
structure ParentEntry where
  institution : Nat
  relationship_type : Option Nat := none
deriving DecidableEq, Repr

/-- The `self.institution` record; `none` on an optional field models the
dict key being absent. -/
structure Institution where
  name_primary : String
  website_link : String
  names : List NameBlock
  countries : List CountryEntry
  flags : List String := []
  founding_date : Option String := none
  closing_date : Option String := none
  identifiers : Option (List IdentifierEntry) := none
  hierarchical_parent : Option (List ParentEntry) := none
  qf_ehea_levels : List Level := []
deriving DecidableEq, Repr

/-- Name sanity checks (lines 367–376): drop `name_english` /
`name_version` fields that duplicate another name, emitting one
`DuplicateNameWarning` per collapse.  Comparisons are on the *raw*
(unstripped) values, as in the source. -/
def sanityNames (data : Row) : Row × List Warn :=
  let o := (lookupKey data "name_official").getD ""
  let p1 :=
    match lookupKey data "name_english" with
    | some e =>
      if e = o then
        (removeKey data "name_english",
         [Warn.dupName ("  - !!! DUPLICATE NAME: English name [" ++ e ++
           "] identical to official name.")])
      else (data, [])
    | none => (data, [])
  let p2 :=
    match lookupKey p1.1 "name_version" with
    | some v =>
      if v = o then
        (removeKey p1.1 "name_version",
         [Warn.dupName ("  - !!! DUPLICATE NAME: Name version [" ++ v ++
           "] identical to official name.")])
      else (p1.1, [])
    | none => (p1.1, [])
  let p3 :=
    match lookupKey p2.1 "name_version", lookupKey p2.1 "name_english" with
    | some v, some e =>
      if v ≠ "" ∧ v = e then
        (removeKey p2.1 "name_version",
         [Warn.dupName ("  - !!! DUPLICATE NAME: Name version [" ++ v ++
           "] identical to English name.")])
      else (p2.1, [])
    | _, _ => (p2.1, [])
  (p3.1, p1.2 ++ p2.2 ++ p3.2)

/-- Build `institution['names'][0]` from the (sanitized) row: official and
English names, optional transliteration (a leading `*` requests the
`transliterate` collaborator on the language pair in the following two
characters; if unavailable the field is dropped with a warning), name
version as alternative name, acronym. -/
def buildNameBlock (translitF : Option (String → String → String))
    (d : Row) : NameBlock × List Warn :=
  let official := (coalesceGuard d ["name_official"]).getD ""
  let tr :=
    match coalesceGuard d ["name_official_transliterated"] with
    | none => ((none : Option String), ([] : List Warn))
    | some v =>
      let raw := (lookupKey d "name_official_transliterated").getD ""
      if raw.data.head? = some '*' then
        let lang : String := ⟨(raw.data.drop 1).take 2⟩
        match translitF with
        | some f => (some (f official lang), [])
        | none =>
          (none, [Warn.translitUnavailable ("  - !!! transliteration to [" ++
            lang ++ "] requested, but transliterate module not available")])
      else (some v, [])
  ({ name_official := official,
     name_english := coalesceGuard d ["name_english"],
     name_official_transliterated := tr.1,
     alternative_names :=
       (match coalesceGuard d ["name_version"] with
        | some v => [v]
        | none => []),
     acronym := coalesceGuard d ["acronym"] }, tr.2)

/-- `closing_date` processing (lines 412–420). -/
def instClosing (d : Row) (inst : Institution) : Except String Institution :=
  match coalesceGuard d ["closing_date"] with
  | none => .ok inst
  | some _ =>
    match processClosingDate ((lookupKey d "closing_date").getD "") with
    | .error e => .error e
    | .ok cd => .ok { inst with closing_date := some cd }

/-- `founding_date` then `closing_date` processing (lines 403–420). -/
def instDates (d : Row) (inst : Institution) : Except String Institution :=
  match coalesceGuard d ["founding_date"] with
  | none => instClosing d inst
  | some _ =>
    match processFoundingDate ((lookupKey d "founding_date").getD "") with
    | .error e => .error e
    | .ok fd => instClosing d { inst with founding_date := some fd }

/-- Identifier processing (lines 422–440): requires an `agency_id` or an
`identifier_resource` (presence-tested, not truthiness-tested); warns when
both are present; without a resource the literal `local identifier` is
stored. -/
def instIdentifier (d : Row) (inst : Institution) :
    Except String (Institution × List Warn) :=
  match coalesceGuard d ["identifier"] with
  | none => .ok (inst, [])
  | some idv =>
    if ¬ hasKey d "identifier_resource" ∧ ¬ hasKey d "agency_id" then
      .error "Identifier needs to have an agency ID or a resource."
    else
      let w : List Warn :=
        if hasKey d "identifier_resource" ∧ hasKey d "agency_id" then
          [Warn.identifierAgencyAndResource ("  - identifier [" ++ idv ++
            "] should not have both agency_id AND a resource")]
        else []
      let res : Option String :=
        if hasKey d "identifier_resource" then
          coalesceGuard d ["identifier_resource"]
        else some "local identifier"
      let ag : Option String :=
        if hasKey d "agency_id" then coalesceGuard d ["agency_id"] else none
      .ok ({ inst with
              identifiers := some [{ identifier := idv, resource := res, agency := ag }] }, w)

/-- Hierarchical parent processing (lines 442–455). -/
def instParent (types : List HType) (d : Row) (inst : Institution) :
    Except String Institution :=
  match coalesceGuard d ["parent_id", "parent_deqar_id"] with
  | none => .ok inst
  | some pv =>
    match parentMatch pv with
    | none => .error ("Malformed parent_id: [" ++ pv ++ "]")
    | some n =>
      match coalesceGuard d ["parent_type"] with
      | none =>
        .ok { inst with hierarchical_parent := some [{ institution := n }] }
      | some pt =>
        match hTypesGet types pt with
        | none => .error ("Unknown parent_type: [" ++ pt ++ "]")
        | some t =>
          .ok { inst with
                  hierarchical_parent := some [{ institution := n, relationship_type := some t.id }] }

/-- QF-EHEA level processing (lines 457–461): non-strict parse of the raw
cell, empty list when the cell is absent or falsy. -/
def instLevels (d : Row) (inst : Institution) : Institution :=
  match coalesceGuard d ["qf_ehea_levels"] with
  | none => { inst with qf_ehea_levels := [] }
  | some _ =>
    match parseLevelSet false ((lookupKey d "qf_ehea_levels").getD "") with
    | .ok ls => { inst with qf_ehea_levels := ls }
    | .error _ => { inst with qf_ehea_levels := [] }

/-- `NewInstitution.__init__`: the full normalization pipeline, in source
order.  Line 340 overwrites `data['website_link']` with the normalized URL,
so the `DomainChecker` calls on lines 343–345 all canonicalize the
normalized URL (line 343 through `csv_coalesce`, hence stripped); the
`core_domain` calls may raise the invalid-URL `DataError`.  The
duplicate-candidate lookups themselves (`DomainChecker.query`,
`_query_name`) are advisory log output and are not part of the record. -/
def newInstitution (psl : List (List (List Char))) (countries : List Country)
    (types : List HType) (translitF : Option (String → String → String))
    (resolver : String → Option String) (data : Row) :
    Except String (Institution × List Warn) :=
  match coalesceGuard data ["name_official"],
        coalesceGuard data ["website_link"] with
  | some _, some rawSite =>
    let name_primary :=
      (coalesceGuard data ["name_english", "name_official"]).getD ""
    (match urlNormalise resolver rawSite with
     | .error e => .error e
     | .ok website =>
       match coreDomainE psl (pyStrip website) with
       | .error e => .error e
       | .ok _ =>
         match coreDomainE psl website with
         | .error e => .error e
         | .ok _ =>
           match coalesceGuard data ["country_id", "country_iso", "country"] with
           | none => .error "Country needs to be specified"
           | some which =>
             match countriesGet countries which with
             | none => .error ("Unknown country [" ++ which ++ "]")
             | some ctry =>
               let s := sanityNames data
               let nb := buildNameBlock translitF s.1
               let inst0 : Institution :=
                 { name_primary := name_primary,
                   website_link := website,
                   names := [nb.1],
                   countries :=
                     [{ country := ctry.id,
                        city := coalesceGuard s.1 ["city"] }],
                   flags := [] }
               match instDates s.1 inst0 with
               | .error e => .error e
               | .ok inst1 =>
                 match instIdentifier s.1 inst1 with
                 | .error e => .error e
                 | .ok iw =>
                   match instParent types s.1 iw.1 with
                   | .error e => .error e
                   | .ok inst3 =>
                     .ok (instLevels s.1 inst3, s.2 ++ nb.2 ++ iw.2))
  | _, _ => .error "Institution must have an official name and a website."

/-! ## Report fingerprint grouper (`findDuplicateReports.py`)

`DuplicateSets._hash_report` builds the canonical tuple
`(sorted institution ids, sorted programme strings, activity, valid_from,
valid_to or None, decision)`, serializes it as JSON with sorted keys and
takes its md5 hex digest.  JSON serialization with a stable key order is
injective on these tuples, and the md5 digest is modelled as collision-free,
so the fingerprint is embedded as the canonical tuple itself.
`DuplicateSets.add` files the report id under
`store[agency_acronym][fingerprint]`; the store is embedded as a flat list
of `(agency, fingerprint, id)` entries with a group-extraction function. -/

/-- One programme entry of a report, with the five fields used by the
fingerprint. -/
structure Programme where
  name_primary : String
  qf_ehea_level : String
  nqf_level : String
  programme_type : String
  workload_ects : String
deriving DecidableEq, Repr

/-- A well-formed report record, with the fields `_hash_report` reads. -/
structure Report where
  id : Nat
  agency_acronym : String
  institutions : List Nat
  programmes : List Programme
  agency_esg_activity : String
  valid_from : String
  valid_to : Option String
  decision : String
deriving DecidableEq, Repr

/-- `f"{name_primary}|{qf_ehea_level}|{nqf_level}|{programme_type}|{workload_ects}"`. -/
def progString (p : Programme) : String :=
  p.name_primary ++ "|" ++ p.qf_ehea_level ++ "|" ++ p.nqf_level ++ "|" ++
    p.programme_type ++ "|" ++ p.workload_ects

/-- The canonical fingerprint tuple of `_hash_report`. -/
structure Fingerprint where
  insts : List Nat
  progs : List String
  activity : String
  valid_from : String
  valid_to : Option String
  decision : String
deriving DecidableEq, Repr

/-- `_hash_report`: sorted institution ids, sorted programme strings, and
the remaining fields verbatim. -/
def hashReport (r : Report) : Fingerprint :=
  { insts := r.institutions.insertionSort (· ≤ ·),
    progs := (r.programmes.map progString).insertionSort (· ≤ ·),
    activity := r.agency_esg_activity,
    valid_from := r.valid_from,
    valid_to := r.valid_to,
    decision := r.decision }

/-- The `DuplicateSets` store, flattened to `(agency, fingerprint, id)`
entries. -/
abbrev DupStore := List (String × Fingerprint × Nat)

/-- `DuplicateSets.add`. -/
def dupAdd (s : DupStore) (r : Report) : DupStore :=
  (r.agency_acronym, hashReport r, r.id) :: s

/-- The id set `store[agency][fp]`. -/
def dupGroup (s : DupStore) (agency : String) (fp : Fingerprint) : List Nat :=
  (s.filter (fun e => e.1 = agency ∧ e.2.1 = fp)).map (fun e => e.2.2)

/-! The fetch loop of `findDuplicateReports.py` (lines 113–121) pulls
paginated report pages and calls `sets.add(r)` on every record; the only
exception handler around the loop catches `KeyboardInterrupt`.  A record
missing one of the fields `_hash_report` subscripts raises `KeyError`
(uncaught).  Raw wire records are therefore embedded with optional fields,
and adding a record with a missing required field is the error case. -/

/-- A raw report record as fetched, before any validation: every field that
`report[...]` subscripting would `KeyError` on is optional (`valid_to` is
read with `report.get`, so it is optional without error). -/
structure RawReport where
  id : Option Nat
  agency_acronym : Option String
  institutions : Option (List Nat)
  programmes : Option (List Programme)
  agency_esg_activity : Option String
  valid_from : Option String
  valid_to : Option String
  decision : Option String
deriving DecidableEq, Repr

/-- Interpret a raw record: `some` if all required fields are present
(`KeyError` otherwise). -/
def validateReport (r : RawReport) : Option Report :=
  match r.id, r.agency_acronym, r.institutions, r.programmes,
        r.agency_esg_activity, r.valid_from, r.decision with
  | some i, some a, some insts, some progs, some act, some vf, some dec =>
    some { id := i, agency_acronym := a, institutions := insts,
           programmes := progs, agency_esg_activity := act,
           valid_from := vf, valid_to := r.valid_to, decision := dec }
  | _, _, _, _, _, _, _ => none

/-- `sets.add(r)` on a raw record: a missing required field raises
`KeyError`, which the fetch loop does not catch. -/
def dupAddRaw (s : DupStore) (r : RawReport) : Except String DupStore :=
  match validateReport r with
  | some rep => .ok (dupAdd s rep)
  | none => .error "KeyError"

/-- The fetch loop over the (flattened) paginated results: add every record
in order; the first uncaught exception aborts the scan, discarding the
remaining records. -/
def scanReports (s : DupStore) : List RawReport → Except String DupStore
  | [] => .ok s
  | r :: rest =>
    match dupAddRaw s r with
    | .ok s1 => scanReports s1 rest
    | .error e => .error e

/-! ## Claim-side predicates and concrete fixtures

The two `claimed…` definitions below follow the *claim wording* (not the
source); they exist only to be compared against the source-derived
definitions. -/

/-- Modelled from the claim's words (C4): a date string is accepted iff it
matches `YYYY` or `YYYY-MM-DD` with a calendar-plausible month (1–12) and
day (1–31). -/
def claimedDateOk (s : String) : Bool :=
  let l := s.data
  (decide (l.length = 4) && l.all isDigitC) ||
  (match l with
   | [y1, y2, y3, y4, h1, m1, m2, h2, d1, d2] =>
     [y1, y2, y3, y4].all isDigitC && (h1 == '-') && (h2 == '-') &&
     [m1, m2].all isDigitC && [d1, d2].all isDigitC &&
     decide (1 ≤ natOfDigits [m1, m2]) && decide (natOfDigits [m1, m2] ≤ 12) &&
     decide (1 ≤ natOfDigits [d1, d2]) && decide (natOfDigits [d1, d2] ≤ 31)
   | _ => false)

/-- Modelled from the claim's words (C6): a parent reference is accepted iff
it is a bare numeric ID or a `DEQARINST`-prefixed numeric ID
(case-insensitive), surrounded by optional whitespace only. -/
def claimedParentOk (s : String) : Bool :=
  let l := (s.data.map asciiUpper).dropWhile isPyWs
  let core := (l.reverse.dropWhile isPyWs).reverse
  (!core.isEmpty && core.all isDigitC) ||
  ("DEQARINST".data.isPrefixOf core && !(core.drop 9).isEmpty &&
    (core.drop 9).all isDigitC)

/-- A public-suffix-list slice for the concrete theorems. -/
def pslExample : List (List (List Char)) :=
  [["org".data], ["eu".data], ["de".data]]

/-- A resolver modelling `requests.head` failing to connect (the fall-back
branch of `_url_normalise`). -/
def noResolver : String → Option String := fun _ => none

/-- The C1 input row. -/
def rowC1 : Row :=
  [("country", "BEL"), ("name_official", "X"),
   ("website_link", "http://example.org/")]

/-- Input row with `name_official = name_english = name_version`, the
counterexample to C9. -/
def rowAllNamesEqual : Row :=
  [("country", "BEL"), ("name_official", "LK"), ("name_english", "LK"),
   ("name_version", "LK"), ("website_link", "http://example.org/")]

/-- The C9 witness row: English name equals official name, no name version. -/
def rowDupEnglish : Row :=
  [("country", "BEL"), ("name_official", "LK"), ("name_english", "LK"),
   ("website_link", "http://example.org/")]

/-- The C10 witness row (the repository's second `good` test vector, with
`identifier` + `agency_id` but no `identifier_resource`). -/
def rowLocalIdentifier : Row :=
  [("country", "BEL"), ("name_official", "Landeskonservatorium"),
   ("website_link", "http://example.org/"), ("identifier", "  4711 "),
   ("agency_id", "11")]

/-- Row with a garbage-suffixed parent reference, the counterexample to C6. -/
def rowParentGarbage : Row :=
  [("country", "BEL"), ("name_official", "LK"),
   ("website_link", "http://example.org/"), ("parent_id", "4711XYZ")]

/-- Row with month `00` and day `00`, the counterexample to C4. -/
def rowDateZero : Row :=
  [("country", "BEL"), ("name_official", "LK"),
   ("website_link", "http://example.org/"), ("founding_date", "2000-00-00")]

/-- `DuplicateNameWarning` recognizer. -/
def isDupNameWarn : Warn → Bool
  | .dupName _ => true
  | _ => false

/-- A well-formed raw report for the grouper theorems. -/
def rawReportA : RawReport :=
  { id := some 1, agency_acronym := some "ACQUIN",
    institutions := some [44, 21], programmes := some [],
    agency_esg_activity := some "institutional audit",
    valid_from := some "2019-01-01", valid_to := some "2024-01-01",
    decision := some "positive" }

/-- A malformed raw report: `valid_from` missing. -/
def rawReportBad : RawReport :=
  { id := some 2, agency_acronym := some "ACQUIN",
    institutions := some [44], programmes := some [],
    agency_esg_activity := some "institutional audit",
    valid_from := none, valid_to := none,
    decision := some "positive" }

/-- A second well-formed raw report, following the malformed one. -/
def rawReportB : RawReport :=
  { id := some 3, agency_acronym := some "EVALAG",
    institutions := some [7], programmes := some [],
    agency_esg_activity := some "programme accreditation",
    valid_from := some "2020-05-01", valid_to := none,
    decision := some "positive" }

/-- Concrete reports for the C2 witness. -/
def reportW1 : Report :=
  { id := 100, agency_acronym := "ACQUIN", institutions := [21, 44],
    programmes := [⟨"Physics", "second cycle", "7", "master", "120"⟩],
    agency_esg_activity := "programme accreditation",
    valid_from := "2019-01-01", valid_to := some "2024-01-01",
    decision := "positive" }

/-- Same fingerprint fields as `reportW1` (institutions permuted), different
report id. -/
def reportW2 : Report :=
  { id := 101, agency_acronym := "ACQUIN", institutions := [44, 21],
    programmes := [⟨"Physics", "second cycle", "7", "master", "120"⟩],
    agency_esg_activity := "programme accreditation",
    valid_from := "2019-01-01", valid_to := some "2024-01-01",
    decision := "positive" }

/-! # Theorems -/

/-- **C1.** The Institution Normalizer on exactly
`{country: "BEL", name_official: "X", website_link: "http://example.org/"}`
succeeds; the record has `name_primary = "X"`, a single country entry with
Belgium's ID (17, as the second conjunct certifies from the reference list),
no identifier entries, an empty QF-EHEA level set; and no warnings are
accumulated. -/
theorem institution_minimal_belgium :
    newInstitution pslExample mockCountries hierarchicalTypes none noResolver
        rowC1
      = .ok ({ name_primary := "X",
               website_link := "http://example.org/",
               names := [{ name_official := "X" }],
               countries := [{ country := 17 }],
               identifiers := none,
               qf_ehea_levels := [] }, [])
    ∧ countriesGet mockCountries "BEL" = some ⟨17, "BE", "BEL", "Belgium"⟩ :=
  ⟨rfl, rfl⟩

/-- **C5.** Parsing `"first, second cycle"` non-strictly yields the same
Level set as `"EQF 6, EQF 7"`; that set is exactly
first cycle/second cycle; its rendering is `"QF-EHEA: 6-7"`; and each level
is rendered as `id + 4 = code + 5` (EQF numbering). -/
theorem level_set_order_independent :
    parseLevelSet false "first, second cycle" = parseLevelSet false "EQF 6, EQF 7"
    ∧ parseLevelSet false "EQF 6, EQF 7"
        = .ok [⟨2, 1, "first cycle"⟩, ⟨3, 2, "second cycle"⟩]
    ∧ levelSetStr [⟨2, 1, "first cycle"⟩, ⟨3, 2, "second cycle"⟩] = "QF-EHEA: 6-7"
    ∧ (∀ l ∈ qfEheaLevels, l.id + 4 = l.code + 5) :=
  ⟨rfl, rfl, rfl, by decide⟩

/-- **C3 (counterexample).** A paginated input containing a malformed report
record (missing `valid_from`) makes the scan abort with the uncaught
`KeyError` instead of skipping the record: the same input without the
malformed record completes fine, so the abort is attributable to it. -/
theorem report_scan_abort_counterexample :
    scanReports [] [rawReportA, rawReportBad, rawReportB] = .error "KeyError"
    ∧ (scanReports [] [rawReportA, rawReportB]).isOk = true :=
  ⟨rfl, rfl⟩

/-- **C9 (counterexample).** An input whose `name_english` equals
`name_official` (second conjunct) can accumulate *two*
DuplicateNameWarnings — when `name_version` also equals the official name —
contradicting the claim's "exactly one" for every such input. -/
theorem duplicate_name_counterexample :
    (newInstitution pslExample mockCountries hierarchicalTypes none noResolver
        rowAllNamesEqual).map (fun p => (p.2.filter isDupNameWarn).length)
      = .ok 2
    ∧ lookupKey rowAllNamesEqual "name_english"
        = lookupKey rowAllNamesEqual "name_official" :=
  ⟨rfl, rfl⟩

/-- **C4 (counterexample).** `"2000-00-00"` (month 0, day 0 — not
calendar-plausible, as the claim-worded predicate certifies) is nevertheless
accepted by the code and stored verbatim, also through the full pipeline. -/
theorem malformed_date_counterexample :
    claimedDateOk "2000-00-00" = false
    ∧ processFoundingDate "2000-00-00" = .ok "2000-00-00"
    ∧ (newInstitution pslExample mockCountries hierarchicalTypes none
        noResolver rowDateZero).map (fun p => p.1.founding_date)
      = .ok (some "2000-00-00") :=
  ⟨rfl, rfl, rfl⟩

/-- **C6 (counterexample).** `"4711XYZ"` is neither a bare numeric ID nor a
`DEQARINST`-prefixed numeric ID (first conjunct, claim-worded predicate),
yet the unanchored `re.match` accepts it and the pipeline stores parent
institution 4711. -/
theorem parent_id_counterexample :
    claimedParentOk "4711XYZ" = false
    ∧ parentMatch "4711XYZ" = some 4711
    ∧ (newInstitution pslExample mockCountries hierarchicalTypes none
        noResolver rowParentGarbage).map (fun p => p.1.hierarchical_parent)
      = .ok (some [{ institution := 4711 }]) :=
  ⟨rfl, rfl, rfl⟩

/-! ## Supporting lemmas -/

theorem dropWhile_head_not {α : Type} (p : α → Bool) (l : List α) (c : α)
    (h : (l.dropWhile p).head? = some c) : p c = false := by
  induction l with
  | nil => simp [List.dropWhile] at h
  | cons a t ih =>
    rw [List.dropWhile_cons] at h
    split at h
    · exact ih h
    · rename_i ha
      simp only [List.head?_cons, Option.some.injEq] at h
      subst h
      simpa using ha

theorem dropWhile_append_all {α : Type} (p : α → Bool) (a b : List α)
    (ha : ∀ c ∈ a, p c = true) : (a ++ b).dropWhile p = b.dropWhile p := by
  induction a with
  | nil => rfl
  | cons x t ih =>
    rw [List.cons_append, List.dropWhile_cons, if_pos (by simp [ha x (by simp)])]
    exact ih (fun c hc => ha c (by simp [hc]))

theorem dropWhile_head_false {α : Type} (p : α → Bool) (x : List α)
    (hx : ∀ c, x.head? = some c → p c = false) : x.dropWhile p = x := by
  cases x with
  | nil => rfl
  | cons a t =>
    rw [List.dropWhile_cons, if_neg]
    simp [hx a rfl]

theorem takeWhile_append_all {α : Type} (p : α → Bool) (a b : List α)
    (ha : ∀ c ∈ a, p c = true) : (a ++ b).takeWhile p = a ++ b.takeWhile p := by
  induction a with
  | nil => rfl
  | cons x t ih =>
    rw [List.cons_append, List.takeWhile_cons, if_pos (by simp [ha x (by simp)])]
    rw [ih (fun c hc => ha c (by simp [hc])), List.cons_append]

theorem takeWhile_head_false {α : Type} (p : α → Bool) (x : List α)
    (hx : ∀ c, x.head? = some c → p c = false) : x.takeWhile p = [] := by
  cases x with
  | nil => rfl
  | cons a t =>
    rw [List.takeWhile_cons, if_neg]
    simp [hx a rfl]

theorem lookupKey_cons (p : String × String) (t : Row) (k : String) :
    lookupKey (p :: t) k = if p.1 = k then some p.2 else lookupKey t k := by
  unfold lookupKey
  rw [List.find?_cons]
  by_cases h : p.1 = k
  · simp [h]
  · simp [h]

theorem removeKey_cons (p : String × String) (t : Row) (k : String) :
    removeKey (p :: t) k
      = if p.1 = k then removeKey t k else p :: removeKey t k := by
  unfold removeKey
  rw [List.filter_cons]
  by_cases h : p.1 = k
  · simp [h]
  · simp [h]

theorem lookupKey_removeKey_ne (d : Row) (k k' : String) (h : k ≠ k') :
    lookupKey (removeKey d k') k = lookupKey d k := by
  induction d with
  | nil => rfl
  | cons p t ih =>
    rw [removeKey_cons, lookupKey_cons]
    by_cases hp : p.1 = k'
    · rw [if_pos hp, ih, if_neg (by rw [hp]; exact fun hc => h hc.symm)]
    · rw [if_neg hp, lookupKey_cons, ih]

theorem lookupKey_removeKey_self (d : Row) (k : String) :
    lookupKey (removeKey d k) k = none := by
  induction d with
  | nil => rfl
  | cons p t ih =>
    rw [removeKey_cons]
    by_cases hp : p.1 = k
    · rw [if_pos hp]; exact ih
    · rw [if_neg hp, lookupKey_cons, if_neg hp]; exact ih

theorem sanityNames_lookup (data : Row) (k : String)
    (h1 : k ≠ "name_english") (h2 : k ≠ "name_version") :
    lookupKey (sanityNames data).1 k = lookupKey data k := by
  unfold sanityNames
  dsimp only
  repeat' split
  all_goals
    simp [lookupKey_removeKey_ne _ _ _ h1, lookupKey_removeKey_ne _ _ _ h2]

theorem coalesceGuard_eq_of_lookup (d1 d2 : Row) (keys : List String)
    (h : ∀ k ∈ keys, lookupKey d1 k = lookupKey d2 k) :
    coalesceGuard d1 keys = coalesceGuard d2 keys := by
  unfold coalesceGuard
  have hfs : keys.findSome? (fun k =>
      match lookupKey d1 k with
      | some v => if v = "" then none else some (pyStrip v)
      | none => none)
    = keys.findSome? (fun k =>
      match lookupKey d2 k with
      | some v => if v = "" then none else some (pyStrip v)
      | none => none) := by
    induction keys with
    | nil => rfl
    | cons a t ih =>
      rw [List.findSome?_cons, List.findSome?_cons, h a (by simp)]
      split
      · rfl
      · exact ih (fun k hk => h k (by simp [hk]))
  rw [hfs]

theorem hasKey_eq_of_lookup (d1 d2 : Row) (k : String)
    (h : lookupKey d1 k = lookupKey d2 k) : hasKey d1 k = hasKey d2 k := by
  unfold hasKey
  rw [h]

theorem sanityNames_coalesce (data : Row) (keys : List String)
    (h1 : "name_english" ∉ keys) (h2 : "name_version" ∉ keys) :
    coalesceGuard (sanityNames data).1 keys = coalesceGuard data keys := by
  refine coalesceGuard_eq_of_lookup _ _ _ (fun k hk => ?_)
  exact sanityNames_lookup data k (fun hc => h1 (hc ▸ hk)) (fun hc => h2 (hc ▸ hk))

theorem sanityNames_hasKey (data : Row) (k : String)
    (h1 : k ≠ "name_english") (h2 : k ≠ "name_version") :
    hasKey (sanityNames data).1 k = hasKey data k :=
  hasKey_eq_of_lookup _ _ _ (sanityNames_lookup data k h1 h2)

theorem instIdentifier_local (d : Row) (i : Institution) (idv : String)
    (hid : coalesceGuard d ["identifier"] = some idv)
    (hag : hasKey d "agency_id" = true)
    (hres : hasKey d "identifier_resource" = false) :
    instIdentifier d i
      = .ok ({ i with
               identifiers := some [{ identifier := idv, resource := some "local identifier", agency := coalesceGuard d ["agency_id"] }] }, []) := by
  unfold instIdentifier
  rw [hid]
  simp [hres, hag]

theorem instParent_identifiers (types : List HType) (d : Row)
    (i i' : Institution) (h : instParent types d i = .ok i') :
    i'.identifiers = i.identifiers ∧ i'.names = i.names
      ∧ i'.founding_date = i.founding_date := by
  unfold instParent at h
  repeat' split at h
  all_goals first
    | (injection h with h; subst h; exact ⟨rfl, rfl, rfl⟩)
    | (cases h)

theorem instLevels_fields (d : Row) (i : Institution) :
    (instLevels d i).identifiers = i.identifiers
      ∧ (instLevels d i).names = i.names
      ∧ (instLevels d i).founding_date = i.founding_date := by
  unfold instLevels
  repeat' split
  all_goals exact ⟨rfl, rfl, rfl⟩

theorem instClosing_fields (d : Row) (i i' : Institution)
    (h : instClosing d i = .ok i') :
    i'.identifiers = i.identifiers ∧ i'.names = i.names := by
  unfold instClosing at h
  repeat' split at h
  all_goals first
    | (injection h with h; subst h; exact ⟨rfl, rfl⟩)
    | (cases h)

theorem instDates_fields (d : Row) (i i' : Institution)
    (h : instDates d i = .ok i') :
    i'.identifiers = i.identifiers ∧ i'.names = i.names := by
  unfold instDates at h
  repeat' split at h
  all_goals first
    | (exact instClosing_fields d i i' h)
    | (have hcf := instClosing_fields d _ i' h; simpa using hcf)
    | (cases h)


/-- **C10.** Whenever the pipeline succeeds on an input that supplies a
(truthy) `identifier` together with an `agency_id` column but no
`identifier_resource` column, the produced record has exactly one identifier
entry, whose `resource` field is the literal `"local identifier"`. -/
theorem identifier_defaults_to_local (psl : List (List (List Char)))
    (countries : List Country) (types : List HType)
    (translitF : Option (String → String → String))
    (resolver : String → Option String) (data : Row) (inst : Institution)
    (w : List Warn) (idv : String)
    (h : newInstitution psl countries types translitF resolver data
          = .ok (inst, w))
    (hid : coalesceGuard data ["identifier"] = some idv)
    (hag : hasKey data "agency_id" = true)
    (hres : hasKey data "identifier_resource" = false) :
    ∃ e : IdentifierEntry, inst.identifiers = some [e]
      ∧ e.identifier = idv ∧ e.resource = some "local identifier" := by
  unfold newInstitution at h
  repeat' (first | split at h | dsimp only at h)
  all_goals try cases h
  rename_i x1 iw hIdent x2 inst3 hParent
  have hid2 : coalesceGuard (sanityNames data).1 ["identifier"] = some idv := by
    rw [sanityNames_coalesce data _ (by simp) (by simp)]
    exact hid
  have hag2 : hasKey (sanityNames data).1 "agency_id" = true := by
    rw [sanityNames_hasKey data _ (by simp) (by simp)]
    exact hag
  have hres2 : hasKey (sanityNames data).1 "identifier_resource" = false := by
    rw [sanityNames_hasKey data _ (by simp) (by simp)]
    exact hres
  rw [instIdentifier_local _ _ _ hid2 hag2 hres2] at hIdent
  injection hIdent with hIdent
  have hp := instParent_identifiers types (sanityNames data).1 iw.1 inst3 hParent
  have hl := instLevels_fields (sanityNames data).1 inst3
  refine ⟨{ identifier := idv, resource := some "local identifier",
            agency := coalesceGuard (sanityNames data).1 ["agency_id"] },
          ?_, rfl, rfl⟩
  rw [hl.1, hp.1, ← hIdent]

/-- Witness for `identifier_defaults_to_local` at the repository's own
`identifier`+`agency_id` test vector. -/
theorem identifier_defaults_to_local_witness :
    ∃ e : IdentifierEntry,
      (Institution.mk "Landeskonservatorium" "http://example.org/"
        [{ name_official := "Landeskonservatorium" }] [{ country := 17 }] []
        none none
        (some [{ identifier := "4711", resource := some "local identifier",
                 agency := some "11" }])
        none []).identifiers = some [e]
      ∧ e.identifier = "4711" ∧ e.resource = some "local identifier" :=
  identifier_defaults_to_local pslExample mockCountries hierarchicalTypes none
    noResolver rowLocalIdentifier _ [] "4711" rfl rfl rfl rfl

theorem coalesceGuard_single_none (d : Row) (k : String)
    (h : lookupKey d k = none) : coalesceGuard d [k] = none := by
  unfold coalesceGuard
  rw [List.findSome?_cons, h]
  rfl

theorem sanityNames_dup_english (data : Row) (v : String)
    (he : lookupKey data "name_english" = some v)
    (ho : lookupKey data "name_official" = some v)
    (hv : ∀ u, lookupKey data "name_version" = some u → u ≠ v) :
    (sanityNames data).2
      = [Warn.dupName ("  - !!! DUPLICATE NAME: English name [" ++ v ++
          "] identical to official name.")]
    ∧ lookupKey (sanityNames data).1 "name_english" = none := by
  unfold sanityNames
  rw [he, ho]
  dsimp only [Option.getD]
  rw [if_pos rfl]
  rw [lookupKey_removeKey_ne _ _ _ (by simp)]
  cases hvv : lookupKey data "name_version" with
  | none =>
    dsimp only
    rw [lookupKey_removeKey_ne _ _ _ (by simp), hvv,
        lookupKey_removeKey_self]
    exact ⟨rfl, rfl⟩
  | some u =>
    dsimp only
    rw [if_neg (by simpa using hv u hvv)]
    rw [lookupKey_removeKey_ne _ _ _ (by simp), hvv,
        lookupKey_removeKey_self]
    refine ⟨rfl, ?_⟩
    first
      | rfl
      | exact lookupKey_removeKey_self data "name_english"

theorem buildNameBlock_no_dup (tf : Option (String → String → String))
    (d : Row) : (buildNameBlock tf d).2.filter isDupNameWarn = [] := by
  unfold buildNameBlock
  dsimp only
  repeat' split
  all_goals simp [isDupNameWarn]

theorem buildNameBlock_english (tf : Option (String → String → String))
    (d : Row) :
    (buildNameBlock tf d).1.name_english = coalesceGuard d ["name_english"] :=
  rfl

theorem instIdentifier_fields (d : Row) (i : Institution)
    (iw : Institution × List Warn) (h : instIdentifier d i = .ok iw) :
    iw.1.names = i.names ∧ iw.2.filter isDupNameWarn = [] := by
  unfold instIdentifier at h
  repeat' (first | split at h | dsimp only at h)
  all_goals first
    | (injection h with h; subst h; constructor <;> simp [isDupNameWarn])
    | (cases h)

/-- **C9 (amended).** Whenever the pipeline succeeds on an input whose raw
`name_english` equals the raw `name_official` — and whose `name_version`,
if present, differs from them (else a second collapse adds a second
warning, see the counterexample) — exactly one `DuplicateNameWarning` is
accumulated and the produced name block carries no `name_english` field. -/
theorem duplicate_name_single_warning (psl : List (List (List Char)))
    (countries : List Country) (types : List HType)
    (translitF : Option (String → String → String))
    (resolver : String → Option String) (data : Row) (inst : Institution)
    (w : List Warn) (v : String)
    (h : newInstitution psl countries types translitF resolver data
          = .ok (inst, w))
    (he : lookupKey data "name_english" = some v)
    (ho : lookupKey data "name_official" = some v)
    (hv : ∀ u, lookupKey data "name_version" = some u → u ≠ v) :
    (w.filter isDupNameWarn).length = 1
    ∧ ∃ nb : NameBlock, inst.names = [nb] ∧ nb.name_english = none := by
  unfold newInstitution at h
  repeat' (first | split at h | dsimp only at h)
  all_goals try cases h
  rename_i x0 inst1 hDates x1 iw hIdent x2 inst3 hParent
  have hs := sanityNames_dup_english data v he ho hv
  have hbn := buildNameBlock_no_dup translitF (sanityNames data).1
  have hbe := buildNameBlock_english translitF (sanityNames data).1
  have hif := instIdentifier_fields (sanityNames data).1 inst1 iw hIdent
  have hdn := instDates_fields (sanityNames data).1 _ inst1 hDates
  have hpn := instParent_identifiers types (sanityNames data).1 iw.1 inst3 hParent
  have hln := instLevels_fields (sanityNames data).1 inst3
  constructor
  · rw [List.filter_append, List.filter_append, hs.1, hbn, hif.2]
    simp [isDupNameWarn]
  · refine ⟨(buildNameBlock translitF (sanityNames data).1).1, ?_, ?_⟩
    · rw [hln.2.1, hpn.2.1, hif.1, hdn.2]
    · rw [hbe]
      exact coalesceGuard_single_none _ _ hs.2

/-- Witness for `duplicate_name_single_warning` at a concrete row with
`name_english = name_official` and no `name_version`. -/
theorem duplicate_name_single_warning_witness :
    (([Warn.dupName ("  - !!! DUPLICATE NAME: English name [LK] identical" ++
        " to official name.")].filter isDupNameWarn).length = 1)
    ∧ ∃ nb : NameBlock,
        (Institution.mk "LK" "http://example.org/"
          [{ name_official := "LK" }] [{ country := 17 }] [] none none none
          none []).names = [nb]
        ∧ nb.name_english = none :=
  duplicate_name_single_warning pslExample mockCountries hierarchicalTypes
    none noResolver rowDupEnglish _ _ "LK" rfl rfl rfl
    (fun _ hu => Option.noConfusion hu)

theorem insertionSort_eq_of_perm {α : Type} [LinearOrder α] {l1 l2 : List α}
    (h : l1.Perm l2) :
    l1.insertionSort (· ≤ ·) = l2.insertionSort (· ≤ ·) :=
  List.eq_of_perm_of_sorted
    ((List.perm_insertionSort _ l1).trans
      (h.trans (List.perm_insertionSort _ l2).symm))
    (List.sorted_insertionSort _ l1) (List.sorted_insertionSort _ l2)

theorem perm_of_insertionSort_eq {α : Type} [LinearOrder α] {l1 l2 : List α}
    (h : l1.insertionSort (· ≤ ·) = l2.insertionSort (· ≤ ·)) :
    l1.Perm l2 :=
  (List.perm_insertionSort _ l1).symm.trans
    (h ▸ List.perm_insertionSort (· ≤ ·) l2)

/-- **C2.** Two reports of the same agency with different ids: if they agree
on the institution-ID multiset, the programme tuples, the activity,
`valid_from`, `valid_to` and the decision, they receive the same fingerprint
and both ids land in the same `(agency, fingerprint)` group; if they differ
in any one of those fields, their fingerprints differ and each id is absent
from the other report's group. -/
theorem report_fingerprint_grouping (r1 r2 : Report)
    (hag : r1.agency_acronym = r2.agency_acronym) (hid : r1.id ≠ r2.id) :
    (r1.institutions.Perm r2.institutions →
     (r1.programmes.map progString).Perm (r2.programmes.map progString) →
     r1.agency_esg_activity = r2.agency_esg_activity →
     r1.valid_from = r2.valid_from → r1.valid_to = r2.valid_to →
     r1.decision = r2.decision →
       hashReport r1 = hashReport r2
       ∧ r1.id ∈ dupGroup (dupAdd (dupAdd [] r1) r2) r2.agency_acronym
           (hashReport r2)
       ∧ r2.id ∈ dupGroup (dupAdd (dupAdd [] r1) r2) r2.agency_acronym
           (hashReport r2))
    ∧ ((¬ r1.institutions.Perm r2.institutions
        ∨ ¬ (r1.programmes.map progString).Perm (r2.programmes.map progString)
        ∨ r1.agency_esg_activity ≠ r2.agency_esg_activity
        ∨ r1.valid_from ≠ r2.valid_from ∨ r1.valid_to ≠ r2.valid_to
        ∨ r1.decision ≠ r2.decision) →
       hashReport r1 ≠ hashReport r2
       ∧ r1.id ∉ dupGroup (dupAdd (dupAdd [] r1) r2) r2.agency_acronym
           (hashReport r2)
       ∧ r2.id ∉ dupGroup (dupAdd (dupAdd [] r1) r2) r1.agency_acronym
           (hashReport r1)) := by
  constructor
  · intro hi hp ha hf ht hd
    have hh : hashReport r1 = hashReport r2 := by
      unfold hashReport
      rw [insertionSort_eq_of_perm hi, insertionSort_eq_of_perm hp,
          ha, hf, ht, hd]
    refine ⟨hh, ?_, ?_⟩
    · simp [dupGroup, dupAdd, List.filter, hag, hh]
    · simp [dupGroup, dupAdd, List.filter, hag, hh]
  · intro hdiff
    have hh : hashReport r1 ≠ hashReport r2 := by
      intro hcon
      unfold hashReport at hcon
      rw [Fingerprint.mk.injEq] at hcon
      rcases hdiff with h | h | h | h | h | h
      · exact h (perm_of_insertionSort_eq hcon.1)
      · exact h (perm_of_insertionSort_eq hcon.2.1)
      · exact h hcon.2.2.1
      · exact h hcon.2.2.2.1
      · exact h hcon.2.2.2.2.1
      · exact h hcon.2.2.2.2.2
    refine ⟨hh, ?_, ?_⟩
    · simp [dupGroup, dupAdd, List.filter, hag, hh, hid]
    · have hh2 : hashReport r2 ≠ hashReport r1 := fun hcon => hh hcon.symm
      simp [dupGroup, dupAdd, List.filter, hag, Ne.symm hid, hh2]

/-- Witness for `report_fingerprint_grouping` at two concrete reports of the
same agency with permuted institution lists and distinct ids. -/
theorem report_fingerprint_grouping_witness :
    (reportW1.institutions.Perm reportW2.institutions →
     (reportW1.programmes.map progString).Perm
       (reportW2.programmes.map progString) →
     reportW1.agency_esg_activity = reportW2.agency_esg_activity →
     reportW1.valid_from = reportW2.valid_from →
     reportW1.valid_to = reportW2.valid_to →
     reportW1.decision = reportW2.decision →
       hashReport reportW1 = hashReport reportW2
       ∧ reportW1.id ∈ dupGroup (dupAdd (dupAdd [] reportW1) reportW2)
           reportW2.agency_acronym (hashReport reportW2)
       ∧ reportW2.id ∈ dupGroup (dupAdd (dupAdd [] reportW1) reportW2)
           reportW2.agency_acronym (hashReport reportW2))
    ∧ ((¬ reportW1.institutions.Perm reportW2.institutions
        ∨ ¬ (reportW1.programmes.map progString).Perm
              (reportW2.programmes.map progString)
        ∨ reportW1.agency_esg_activity ≠ reportW2.agency_esg_activity
        ∨ reportW1.valid_from ≠ reportW2.valid_from
        ∨ reportW1.valid_to ≠ reportW2.valid_to
        ∨ reportW1.decision ≠ reportW2.decision) →
       hashReport reportW1 ≠ hashReport reportW2
       ∧ reportW1.id ∉ dupGroup (dupAdd (dupAdd [] reportW1) reportW2)
           reportW2.agency_acronym (hashReport reportW2)
       ∧ reportW2.id ∉ dupGroup (dupAdd (dupAdd [] reportW1) reportW2)
           reportW1.agency_acronym (hashReport reportW1)) :=
  report_fingerprint_grouping reportW1 reportW2 rfl (by decide)

/-- **C3 (amended).** A report record with a required field missing makes
the whole scan abort immediately with the uncaught `KeyError` — the
remaining records of the input are never processed — since the fetch loop
catches only `KeyboardInterrupt`. -/
theorem report_scan_aborts_on_malformed (s : DupStore) (r : RawReport)
    (rest : List RawReport) (h : validateReport r = none) :
    scanReports s (r :: rest) = .error "KeyError" := by
  unfold scanReports dupAddRaw
  rw [h]

/-- Witness for `report_scan_aborts_on_malformed` at the concrete malformed
record. -/
theorem report_scan_aborts_on_malformed_witness :
    scanReports [] [rawReportBad, rawReportA] = .error "KeyError" :=
  report_scan_aborts_on_malformed [] rawReportBad [rawReportA] rfl

/-- The code recognized in a token, if any. -/
def tokCode (t : List Char) : Option Nat :=
  match tokenMatch t with
  | .code c => some c
  | _ => none

theorem levelCodesGo_false (toks : List (List Char)) (acc : List Nat) :
    levelCodesGo false toks acc = .ok (acc ++ toks.filterMap tokCode) := by
  induction toks generalizing acc with
  | nil => simp [levelCodesGo]
  | cons t rest ih =>
    unfold levelCodesGo
    cases htm : tokenMatch t with
    | code c =>
      simp [List.filterMap_cons, tokCode, htm, ih]
    | cycleTok =>
      simp [List.filterMap_cons, tokCode, htm, ih]
    | unmatched =>
      simp [List.filterMap_cons, tokCode, htm, ih]

theorem levelCodesGo_true_error (toks : List (List Char)) (acc : List Nat) :
    (∃ e, levelCodesGo true toks acc = .error e)
      ↔ ∃ t ∈ toks, tokenMatch t = .unmatched := by
  induction toks generalizing acc with
  | nil => simp [levelCodesGo]
  | cons t rest ih =>
    unfold levelCodesGo
    cases htm : tokenMatch t with
    | code c =>
      rw [ih]
      constructor
      · rintro ⟨u, hu, hm⟩
        exact ⟨u, by simp [hu], hm⟩
      · rintro ⟨u, hu, hm⟩
        rcases List.mem_cons.mp hu with h | h
        · rw [h, htm] at hm
          cases hm
        · exact ⟨u, h, hm⟩
    | cycleTok =>
      rw [ih]
      constructor
      · rintro ⟨u, hu, hm⟩
        exact ⟨u, by simp [hu], hm⟩
      · rintro ⟨u, hu, hm⟩
        rcases List.mem_cons.mp hu with h | h
        · rw [h, htm] at hm
          cases hm
        · exact ⟨u, h, hm⟩
    | unmatched =>
      dsimp only
      rw [if_pos rfl]
      constructor
      · intro _
        exact ⟨t, by simp, htm⟩
      · intro _
        exact ⟨_, rfl⟩

/-- **C7.** In strict mode the tokenizer raises `UnrecognizedLevel` iff some
token is unrecognized (neither a level digit, nor `cycle`, nor a cycle
keyword); in non-strict mode unrecognized tokens are dropped and the result
is the level set of the recognized tokens alone.  In particular
`"short cycle, third cycle"` parses strictly to exactly the short- and
third-cycle references, and `"something about spam"` raises strictly. -/
theorem level_tokenizer_strict (s : String) :
    ((∃ e, parseLevelSet true s = .error e)
      ↔ ∃ t ∈ splitTokens (levelStrip s.data), tokenMatch t = .unmatched)
    ∧ parseLevelSet false s
        = .ok ((sortedDedup ((splitTokens (levelStrip s.data)).filterMap
            tokCode)).filterMap levelsGet)
    ∧ parseLevelSet true "short cycle, third cycle"
        = .ok [⟨1, 0, "short cycle"⟩, ⟨4, 3, "third cycle"⟩]
    ∧ (∃ e, parseLevelSet true "something about spam" = .error e) := by
  refine ⟨?_, ?_, rfl, ⟨_, rfl⟩⟩
  · unfold parseLevelSet
    rw [← levelCodesGo_true_error (splitTokens (levelStrip s.data)) []]
    constructor
    · rintro ⟨e, he⟩
      cases hgo : levelCodesGo true (splitTokens (levelStrip s.data)) [] with
      | error e2 => exact ⟨e2, rfl⟩
      | ok codes =>
        rw [hgo] at he
        cases he
    · rintro ⟨e, he⟩
      rw [he]
      exact ⟨e, rfl⟩
  · unfold parseLevelSet
    rw [levelCodesGo_false]
    rfl

theorem digit_not_ws (c : Char) (h : isDigitC c = true) : isPyWs c = false := by
  unfold isDigitC at h
  simp only [Bool.and_eq_true, decide_eq_true_eq] at h
  have h1 : 48 ≤ c.toNat := h.1
  unfold isPyWs
  simp only [Bool.or_eq_false_iff, decide_eq_false_iff_not]
  repeat' apply And.intro
  all_goals intro hc
  all_goals (subst hc; exact absurd h1 (by decide))

/-- The acceptance shape of the unanchored parent-reference regex: after
upper-casing, optional leading whitespace, an optional literal `DEQARINST`,
a non-empty maximal digit run (whose decimal value is stored), then
arbitrary trailing characters. -/
def ParentShape (s : String) (n : Nat) : Prop :=
  ∃ ws pre ds rest : List Char,
    s.data.map asciiUpper = ws ++ pre ++ ds ++ rest
    ∧ (∀ c ∈ ws, isPyWs c = true)
    ∧ (pre = [] ∨ pre = "DEQARINST".data)
    ∧ ds ≠ [] ∧ (∀ c ∈ ds, isDigitC c = true)
    ∧ (∀ c, rest.head? = some c → isDigitC c = false)
    ∧ n = natOfDigits ds

theorem parentMatch_some_shape (s : String) (n : Nat)
    (h : parentMatch s = some n) : ParentShape s n := by
  unfold parentMatch at h
  dsimp only at h
  set u := s.data.map asciiUpper with hu
  have hsplit : u.takeWhile isPyWs ++ u.dropWhile isPyWs = u :=
    List.takeWhile_append_dropWhile _ _
  by_cases hpre : "DEQARINST".data.isPrefixOf (u.dropWhile isPyWs) = true
  · rw [if_pos hpre] at h
    obtain ⟨t, ht⟩ := (List.isPrefixOf_iff_prefix.mp hpre)
    have hdrop : (u.dropWhile isPyWs).drop 9 = t := by
      rw [← ht]
      exact List.drop_left "DEQARINST".data t
    rw [hdrop] at h
    cases hc : t with
    | nil => rw [hc] at h; cases h
    | cons c t2 =>
      rw [hc] at h
      dsimp only at h
      by_cases hd : isDigitC c = true
      · rw [if_pos hd] at h
        injection h with h
        refine ⟨u.takeWhile isPyWs, "DEQARINST".data,
                (c :: t2).takeWhile isDigitC, (c :: t2).dropWhile isDigitC,
                ?_, ?_, Or.inr rfl, ?_, ?_, ?_, ?_⟩
        · simp only [List.append_assoc]
          rw [show List.takeWhile isDigitC (c :: t2) ++
                List.dropWhile isDigitC (c :: t2) = c :: t2 from
              List.takeWhile_append_dropWhile _ _, ← hc, ht, hsplit]
        · exact fun c2 hc2 => List.mem_takeWhile_imp hc2
        · rw [List.takeWhile_cons, if_pos hd]
          simp
        · exact fun c2 hc2 => List.mem_takeWhile_imp hc2
        · exact fun c2 hc2 => dropWhile_head_not _ _ _ hc2
        · exact h.symm
      · rw [if_neg hd] at h
        cases h
  · rw [if_neg hpre] at h
    cases hc : u.dropWhile isPyWs with
    | nil => rw [hc] at h; cases h
    | cons c t2 =>
      rw [hc] at h
      dsimp only at h
      by_cases hd : isDigitC c = true
      · rw [if_pos hd] at h
        injection h with h
        refine ⟨u.takeWhile isPyWs, [],
                (c :: t2).takeWhile isDigitC, (c :: t2).dropWhile isDigitC,
                ?_, ?_, Or.inl rfl, ?_, ?_, ?_, ?_⟩
        · simp only [List.append_assoc, List.nil_append]
          rw [show List.takeWhile isDigitC (c :: t2) ++
                List.dropWhile isDigitC (c :: t2) = c :: t2 from
              List.takeWhile_append_dropWhile _ _, ← hc, hsplit]
        · exact fun c2 hc2 => List.mem_takeWhile_imp hc2
        · rw [List.takeWhile_cons, if_pos hd]
          simp
        · exact fun c2 hc2 => List.mem_takeWhile_imp hc2
        · exact fun c2 hc2 => dropWhile_head_not _ _ _ hc2
        · exact h.symm
      · rw [if_neg hd] at h
        cases h

theorem parentMatch_of_shape (s : String) (n : Nat) (h : ParentShape s n) :
    parentMatch s = some n := by
  obtain ⟨ws, pre, ds, rest, hsplit, hws, hpre, hne, hds, hrest, hn⟩ := h
  obtain ⟨d, ds2, rfl⟩ : ∃ d ds2, ds = d :: ds2 := by
    cases ds with
    | nil => exact absurd rfl hne
    | cons d ds2 => exact ⟨d, ds2, rfl⟩
  have hd : isDigitC d = true := hds d (by simp)
  unfold parentMatch
  dsimp only
  rw [hsplit]
  simp only [List.append_assoc, List.cons_append]
  rw [dropWhile_append_all isPyWs ws (pre ++ (d :: (ds2 ++ rest)))
    (fun c hc => hws c hc)]
  rcases hpre with hpre | hpre
  · subst hpre
    rw [show ([] : List Char) ++ (d :: (ds2 ++ rest)) = d :: (ds2 ++ rest)
      from rfl]
    rw [dropWhile_head_false isPyWs _
      (fun c hc => by
        simp only [List.head?_cons, Option.some.injEq] at hc
        subst hc
        exact digit_not_ws _ hd)]
    have hb : (['D', 'E', 'Q', 'A', 'R', 'I', 'N', 'S', 'T'] :
        List Char).isPrefixOf (d :: (ds2 ++ rest)) = false := by
      cases hb2 : (['D', 'E', 'Q', 'A', 'R', 'I', 'N', 'S', 'T'] :
          List Char).isPrefixOf (d :: (ds2 ++ rest)) with
      | false => rfl
      | true =>
        obtain ⟨t, ht2⟩ := List.isPrefixOf_iff_prefix.mp hb2
        have hD : d = 'D' := by
          have := congrArg List.head? ht2
          simpa using this.symm
        rw [hD] at hd
        cases hd
    rw [if_neg (by simp [hb])]
    dsimp only
    rw [if_pos hd]
    rw [List.takeWhile_cons, if_pos hd,
        takeWhile_append_all isDigitC ds2 rest (fun c hc => hds c (by simp [hc])),
        takeWhile_head_false isDigitC rest hrest, List.append_nil]
    rw [hn]
  · subst hpre
    rw [show ("DEQARINST".data : List Char)
      = ['D', 'E', 'Q', 'A', 'R', 'I', 'N', 'S', 'T'] from rfl]
    rw [dropWhile_head_false isPyWs _
      (fun c hc => by
        have hD : 'D' = c := by simpa using hc
        subst hD
        rfl)]
    rw [if_pos (List.isPrefixOf_iff_prefix.mpr ⟨d :: (ds2 ++ rest), by simp⟩)]
    rw [show ((['D', 'E', 'Q', 'A', 'R', 'I', 'N', 'S', 'T'] : List Char)
        ++ (d :: (ds2 ++ rest))).drop 9 = d :: (ds2 ++ rest) from rfl]
    dsimp only
    rw [if_pos hd]
    rw [List.takeWhile_cons, if_pos hd,
        takeWhile_append_all isDigitC ds2 rest (fun c hc => hds c (by simp [hc])),
        takeWhile_head_false isDigitC rest hrest, List.append_nil]
    rw [hn]

/-- **C6 (amended).** The parent-reference regex is an unanchored prefix
match: a value is accepted, with the decimal value of its first maximal
digit run stored as the institution reference, iff after upper-casing it
consists of optional leading whitespace, an optional literal `DEQARINST`, a
non-empty digit run, and *arbitrary* trailing characters; only values
without such a prefix raise `MalformedParentId`.  The last two conjuncts
lift this to the pipeline step: a non-matching value raises the
`Malformed parent_id` DataError, a matching one stores the integer. -/
theorem parent_reference_accepts_trailing_garbage (s : String) :
    (∀ n, parentMatch s = some n ↔ ParentShape s n)
    ∧ (parentMatch s = none ↔ ∀ n, ¬ ParentShape s n)
    ∧ (∀ (types : List HType) (d : Row) (i : Institution) (pv : String),
        coalesceGuard d ["parent_id", "parent_deqar_id"] = some pv →
        parentMatch pv = none →
        instParent types d i
          = .error ("Malformed parent_id: [" ++ pv ++ "]"))
    ∧ (∀ (types : List HType) (d : Row) (i : Institution) (pv : String)
        (n : Nat),
        coalesceGuard d ["parent_id", "parent_deqar_id"] = some pv →
        parentMatch pv = some n →
        coalesceGuard d ["parent_type"] = none →
        instParent types d i
          = .ok { i with hierarchical_parent := some [{ institution := n }] }) := by
  refine ⟨fun n => ⟨parentMatch_some_shape s n, parentMatch_of_shape s n⟩,
          ⟨?_, ?_⟩, ?_, ?_⟩
  · intro hn n hshape
    rw [parentMatch_of_shape s n hshape] at hn
    cases hn
  · intro hall
    cases hm : parentMatch s with
    | none => rfl
    | some n => exact absurd (parentMatch_some_shape s n hm) (hall n)
  · intro types d i pv hc hm
    unfold instParent
    rw [hc]
    dsimp only
    rw [hm]
  · intro types d i pv n hc hm hpt
    unfold instParent
    rw [hc]
    dsimp only
    rw [hm]
    dsimp only
    rw [hpt]

/-- Witness for `parent_reference_accepts_trailing_garbage`: the accepted
`DEQARINST`-prefixed test value decomposes as the shape requires. -/
theorem parent_reference_accepts_trailing_garbage_witness :
    ParentShape " DeqarINST4711 " 4711 :=
  ((parent_reference_accepts_trailing_garbage " DeqarINST4711 ").1 4711).mp rfl

/-- The month forms of the regex alternation `1[012]|0?[0-9]`. -/
def MonthStr (m : List Char) : Prop :=
  (∃ c, m = [c] ∧ isDigitC c = true) ∨ (∃ c, m = ['0', c] ∧ isDigitC c = true)
  ∨ m = ['1', '0'] ∨ m = ['1', '1'] ∨ m = ['1', '2']

/-- The day forms of the regex alternation `31|30|[012]?[0-9]`. -/
def DayStr (dy : List Char) : Prop :=
  dy = ['3', '0'] ∨ dy = ['3', '1'] ∨ (∃ c, dy = [c] ∧ isDigitC c = true)
  ∨ (∃ a b, dy = [a, b] ∧ (a = '0' ∨ a = '1' ∨ a = '2') ∧ isDigitC b = true)

/-- The acceptance shape of the date regex
`^\s*([0-9]{4})(-(?:1[012]|0?[0-9])-(?:31|30|[012]?[0-9]))?\s*$`. -/
def DateShape (s : String) : Prop :=
  ∃ ws1 y md ws2 : List Char,
    s.data = ws1 ++ y ++ md ++ ws2
    ∧ (∀ c ∈ ws1, isPyWs c = true) ∧ (∀ c ∈ ws2, isPyWs c = true)
    ∧ y.length = 4 ∧ (∀ c ∈ y, isDigitC c = true)
    ∧ (md = [] ∨ ∃ m dy, md = '-' :: m ++ '-' :: dy ∧ MonthStr m ∧ DayStr dy)

theorem matchMonth_some (l m r : List Char) (h : matchMonth l = some (m, r)) :
    l = m ++ '-' :: r ∧ MonthStr m := by
  unfold matchMonth at h
  split at h
  · injection h with h
    rw [Prod.mk.injEq] at h
    obtain ⟨rfl, rfl⟩ := h
    exact ⟨rfl, Or.inr (Or.inr (Or.inl rfl))⟩
  · injection h with h
    rw [Prod.mk.injEq] at h
    obtain ⟨rfl, rfl⟩ := h
    exact ⟨rfl, Or.inr (Or.inr (Or.inr (Or.inl rfl)))⟩
  · injection h with h
    rw [Prod.mk.injEq] at h
    obtain ⟨rfl, rfl⟩ := h
    exact ⟨rfl, Or.inr (Or.inr (Or.inr (Or.inr rfl)))⟩
  · rename_i c r0
    split at h
    · injection h with h
      rw [Prod.mk.injEq] at h
      obtain ⟨rfl, rfl⟩ := h
      rename_i hd
      exact ⟨rfl, Or.inr (Or.inl ⟨c, rfl, hd⟩)⟩
    · cases h
  · rename_i c r0 hnc
    split at h
    · injection h with h
      rw [Prod.mk.injEq] at h
      obtain ⟨rfl, rfl⟩ := h
      rename_i hd
      exact ⟨rfl, Or.inl ⟨c, rfl, hd⟩⟩
    · cases h
  · cases h

theorem dayAlt_some (l dy : List Char) (h : dayAlt l = some dy) :
    ∃ ws2, l = dy ++ ws2 ∧ (∀ c ∈ ws2, isPyWs c = true) ∧ DayStr dy := by
  unfold dayAlt at h
  split at h
  · rename_i a b r
    split at h
    · injection h with h
      subst h
      rename_i hcond
      exact ⟨r, rfl, fun c hc => by
          have := hcond.2.2
          simpa using List.all_eq_true.mp this c hc,
        Or.inr (Or.inr (Or.inr ⟨a, b, rfl, hcond.1, hcond.2.1⟩))⟩
    · split at h
      · injection h with h
        subst h
        rename_i hcond2
        exact ⟨b :: r, rfl, fun c hc => by
            have := hcond2.2
            simpa using List.all_eq_true.mp this c hc,
          Or.inr (Or.inr (Or.inl ⟨a, rfl, hcond2.1⟩))⟩
      · cases h
  · rename_i a
    split at h
    · injection h with h
      subst h
      rename_i hd
      exact ⟨[], by simp, by simp, Or.inr (Or.inr (Or.inl ⟨a, rfl, hd⟩))⟩
    · cases h
  · cases h

theorem matchDay_some (l dy : List Char) (h : matchDay l = some dy) :
    ∃ ws2, l = dy ++ ws2 ∧ (∀ c ∈ ws2, isPyWs c = true) ∧ DayStr dy := by
  unfold matchDay at h
  split at h
  · rename_i r
    split at h
    · injection h with h
      subst h
      rename_i hall
      exact ⟨r, rfl, fun c hc => List.all_eq_true.mp hall c hc,
        Or.inr (Or.inl rfl)⟩
    · exact dayAlt_some _ _ h
  · rename_i r
    split at h
    · injection h with h
      subst h
      rename_i hall
      exact ⟨r, rfl, fun c hc => List.all_eq_true.mp hall c hc, Or.inl rfl⟩
    · exact dayAlt_some _ _ h
  · exact dayAlt_some _ _ h

theorem matchMonth_shape (m r : List Char) (hm : MonthStr m)
    (hr : ∀ c, r.head? = some c → isDigitC c = true) :
    matchMonth (m ++ '-' :: r) = some (m, r) := by
  unfold matchMonth
  split
  case h_1 r' heq =>
    rcases hm with ⟨c, rfl, hd⟩ | ⟨c, rfl, hd⟩ | rfl | rfl | rfl <;>
      simp_all
  case h_2 r' heq =>
    rcases hm with ⟨c, rfl, hd⟩ | ⟨c, rfl, hd⟩ | rfl | rfl | rfl <;>
      simp_all
  case h_3 r' heq =>
    rcases hm with ⟨c, rfl, hd⟩ | ⟨c, rfl, hd⟩ | rfl | rfl | rfl <;>
      simp_all
  case h_4 c' r' heq =>
    rcases hm with ⟨c, rfl, hd⟩ | ⟨c, rfl, hd⟩ | rfl | rfl | rfl <;>
      simp_all
    exact absurd hr (by decide)
  case h_5 c' r' hnc heq =>
    rcases hm with ⟨c, rfl, hd⟩ | ⟨c, rfl, hd⟩ | rfl | rfl | rfl <;>
      simp_all
    exact absurd hd (by decide)
  case h_6 hn1 hn2 hn3 hn4 hn5 =>
    rcases hm with ⟨c, rfl, hd⟩ | ⟨c, rfl, hd⟩ | rfl | rfl | rfl <;>
      simp_all

theorem ws_not_digit (c : Char) (h : isPyWs c = true) : isDigitC c = false := by
  cases hd : isDigitC c with
  | false => rfl
  | true => rw [digit_not_ws c hd] at h; cases h

theorem dayAlt_shape_single (c : Char) (ws : List Char)
    (hd : isDigitC c = true) (hws : ∀ x ∈ ws, isPyWs x = true) :
    dayAlt (c :: ws) = some [c] := by
  cases ws with
  | nil =>
    unfold dayAlt
    dsimp only
    rw [if_pos hd]
  | cons w ws2 =>
    unfold dayAlt
    dsimp only
    rw [if_neg (by
      intro hcon
      have := hcon.2.1
      rw [ws_not_digit w (hws w (by simp))] at this
      cases this)]
    rw [if_pos ⟨hd, List.all_eq_true.mpr (fun x hx => hws x hx)⟩]

theorem dayAlt_shape_double (a b : Char) (ws : List Char)
    (ha : a = '0' ∨ a = '1' ∨ a = '2') (hb : isDigitC b = true)
    (hws : ∀ x ∈ ws, isPyWs x = true) :
    dayAlt (a :: b :: ws) = some [a, b] := by
  unfold dayAlt
  dsimp only
  rw [if_pos ⟨ha, hb, List.all_eq_true.mpr (fun x hx => hws x hx)⟩]

theorem matchDay_shape (dy ws : List Char) (hd : DayStr dy)
    (hws : ∀ x ∈ ws, isPyWs x = true) : matchDay (dy ++ ws) = some dy := by
  rcases hd with rfl | rfl | ⟨c, rfl, hc⟩ | ⟨a, b, rfl, ha, hb⟩
  · show (if ws.all isPyWs = true then some ['3', '0']
        else dayAlt ('3' :: '0' :: ws)) = some ['3', '0']
    rw [if_pos (List.all_eq_true.mpr (fun x hx => hws x hx))]
  · show (if ws.all isPyWs = true then some ['3', '1']
        else dayAlt ('3' :: '1' :: ws)) = some ['3', '1']
    rw [if_pos (List.all_eq_true.mpr (fun x hx => hws x hx))]
  · unfold matchDay
    split
    case h_1 r' heq =>
      simp only [List.cons_append, List.nil_append, List.cons.injEq] at heq
      exact absurd (hws '1' (by simp [heq.2])) (by decide)
    case h_2 r' heq =>
      simp only [List.cons_append, List.nil_append, List.cons.injEq] at heq
      exact absurd (hws '0' (by simp [heq.2])) (by decide)
    case h_3 =>
      exact dayAlt_shape_single c ws hc hws
  · unfold matchDay
    split
    case h_1 r' heq =>
      simp only [List.cons_append, List.cons.injEq] at heq
      rcases ha with rfl | rfl | rfl <;> simp_all
    case h_2 r' heq =>
      simp only [List.cons_append, List.cons.injEq] at heq
      rcases ha with rfl | rfl | rfl <;> simp_all
    case h_3 =>
      exact dayAlt_shape_double a b ws ha hb hws

theorem dateMatch_some_shape (s : String) (v : List Char × Option (List Char))
    (h : dateMatch s = some v) : DateShape s := by
  unfold dateMatch at h
  have hsplit : s.data.takeWhile isPyWs ++ s.data.dropWhile isPyWs = s.data :=
    List.takeWhile_append_dropWhile _ _
  split at h
  case h_2 => cases h
  case h_1 y1 y2 y3 y4 rest heq =>
    split at h
    case isFalse => cases h
    case isTrue hdig =>
      split at h
      case isTrue hall =>
        refine ⟨s.data.takeWhile isPyWs, [y1, y2, y3, y4], [], rest,
          ?_, fun c hc => List.mem_takeWhile_imp hc,
          fun c hc => List.all_eq_true.mp hall c hc, rfl,
          fun c hc => List.all_eq_true.mp hdig c hc, Or.inl rfl⟩
        refine hsplit.symm.trans ?_
        rw [heq]
        simp
      case isFalse =>
        split at h
        case h_2 => cases h
        case h_1 r1 heq2 =>
          split at h
          case h_2 => cases h
          case h_1 m r2 heq3 =>
            split at h
            case h_2 => cases h
            case h_1 dy heq4 =>
              obtain ⟨hm1, hm2⟩ := matchMonth_some r1 m r2 heq3
              obtain ⟨ws2, hd1, hd2, hd3⟩ := matchDay_some r2 dy heq4
              refine ⟨s.data.takeWhile isPyWs, [y1, y2, y3, y4],
                '-' :: m ++ '-' :: dy, ws2,
                ?_, fun c hc => List.mem_takeWhile_imp hc, hd2, rfl,
                fun c hc => List.all_eq_true.mp hdig c hc,
                Or.inr ⟨m, dy, rfl, hm2, hd3⟩⟩
              refine hsplit.symm.trans ?_
              rw [heq, hm1, hd1]
              simp

theorem dayStr_head (dy : List Char) (h : DayStr dy) :
    ∃ d ds, dy = d :: ds ∧ isDigitC d = true := by
  rcases h with rfl | rfl | ⟨c, rfl, hc⟩ | ⟨a, b, rfl, ha, hb⟩
  · exact ⟨'3', ['0'], rfl, by decide⟩
  · exact ⟨'3', ['1'], rfl, by decide⟩
  · exact ⟨c, [], rfl, hc⟩
  · refine ⟨a, [b], rfl, ?_⟩
    rcases ha with rfl | rfl | rfl <;> decide

theorem dateMatch_of_shape_year (s : String) (ws1 y ws2 : List Char)
    (hsplit : s.data = ws1 ++ y ++ ws2)
    (hws1 : ∀ c ∈ ws1, isPyWs c = true) (hws2 : ∀ c ∈ ws2, isPyWs c = true)
    (hy4 : y.length = 4) (hyd : ∀ c ∈ y, isDigitC c = true) :
    dateMatch s = some (y, none) := by
  obtain ⟨y1, y2, y3, y4, rfl⟩ : ∃ a b c d, y = [a, b, c, d] := by
    match y, hy4 with
    | [a, b, c, d], _ => exact ⟨a, b, c, d, rfl⟩
  unfold dateMatch
  rw [hsplit]
  simp only [List.append_assoc, List.cons_append, List.nil_append]
  rw [dropWhile_append_all isPyWs ws1 _ hws1]
  rw [dropWhile_head_false isPyWs _ (fun c hc => by
    simp only [List.head?_cons, Option.some.injEq] at hc
    subst hc
    exact digit_not_ws _ (hyd y1 (by simp)))]
  dsimp only
  rw [if_pos (List.all_eq_true.mpr (fun x hx => hyd x hx))]
  rw [if_pos (List.all_eq_true.mpr (fun x hx => hws2 x hx))]

theorem dateMatch_of_shape_full (s : String) (ws1 y m dy ws2 : List Char)
    (hsplit : s.data = ws1 ++ y ++ ('-' :: m ++ '-' :: dy) ++ ws2)
    (hws1 : ∀ c ∈ ws1, isPyWs c = true) (hws2 : ∀ c ∈ ws2, isPyWs c = true)
    (hy4 : y.length = 4) (hyd : ∀ c ∈ y, isDigitC c = true)
    (hm : MonthStr m) (hd : DayStr dy) :
    dateMatch s = some (y, some ('-' :: m ++ '-' :: dy)) := by
  obtain ⟨y1, y2, y3, y4, rfl⟩ : ∃ a b c d, y = [a, b, c, d] := by
    match y, hy4 with
    | [a, b, c, d], _ => exact ⟨a, b, c, d, rfl⟩
  obtain ⟨d0, ds0, hdy, hd0⟩ := dayStr_head dy hd
  unfold dateMatch
  rw [hsplit]
  simp only [List.append_assoc, List.cons_append, List.nil_append]
  rw [dropWhile_append_all isPyWs ws1 _ hws1]
  rw [dropWhile_head_false isPyWs _ (fun c hc => by
    simp only [List.head?_cons, Option.some.injEq] at hc
    subst hc
    exact digit_not_ws _ (hyd y1 (by simp)))]
  dsimp only
  rw [if_pos (List.all_eq_true.mpr (fun x hx => hyd x hx))]
  rw [if_neg (by
    intro hall
    have := List.all_eq_true.mp hall '-' (by simp)
    cases this)]
  split
  case h_2 hnc =>
    exact absurd rfl (hnc (m ++ '-' :: (dy ++ ws2)))
  case h_1 r1 heq =>
    obtain rfl : m ++ '-' :: (dy ++ ws2) = r1 := by
      injection heq
    rw [matchMonth_shape m (dy ++ ws2) hm (fun c hc => by
      rw [hdy] at hc
      simp only [List.cons_append, List.head?_cons, Option.some.injEq] at hc
      subst hc
      exact hd0)]
    try dsimp only
    rw [matchDay_shape dy ws2 hd hws2]

/-- **C4 (amended).** A founding/closing date string is accepted iff it
matches the source regex shape: optional whitespace, four digits, then
optionally `-M-D` where `M` is a one- or two-digit month of the forms
`1[012]|0?[0-9]` (so `0`, `00`–`09`, single digits and `10`–`12` — month 0
included) and `D` is a day of the forms `31|30|[012]?[0-9]` (so `0`–`29`
with optional leading 0/1/2, `30`, `31` — day 0 included), then optional
whitespace.  A year-only founding date is stored as `YYYY-01-01` and a
year-only closing date as `YYYY-12-31`; anything else raises the
corresponding `Malformed …` DataError. -/
theorem malformed_date_characterization (s : String) :
    ((processFoundingDate s).isOk = true ↔ DateShape s)
    ∧ ((processClosingDate s).isOk = true ↔ DateShape s)
    ∧ (∀ ws1 y ws2 : List Char, s.data = ws1 ++ y ++ ws2 →
        (∀ c ∈ ws1, isPyWs c = true) → (∀ c ∈ ws2, isPyWs c = true) →
        y.length = 4 → (∀ c ∈ y, isDigitC c = true) →
        processFoundingDate s = .ok (⟨y⟩ ++ "-01-01")
        ∧ processClosingDate s = .ok (⟨y⟩ ++ "-12-31"))
    ∧ (∀ e, processFoundingDate s = .error e →
        e = "Malformed founding_date: [" ++ s ++ "]") := by
  have hfwd : ∀ v, dateMatch s = some v → DateShape s :=
    fun v hv => dateMatch_some_shape s v hv
  have hbwd : DateShape s → ∃ v, dateMatch s = some v := by
    intro hshape
    obtain ⟨ws1, y, md, ws2, hsplit, hws1, hws2, hy4, hyd, hmd⟩ := hshape
    rcases hmd with rfl | ⟨m, dy, rfl, hm, hd⟩
    · exact ⟨(y, none), dateMatch_of_shape_year s ws1 y ws2
        (by simpa using hsplit) hws1 hws2 hy4 hyd⟩
    · exact ⟨(y, some ('-' :: m ++ '-' :: dy)),
        dateMatch_of_shape_full s ws1 y m dy ws2 hsplit hws1 hws2 hy4 hyd hm hd⟩
  refine ⟨⟨?_, ?_⟩, ⟨?_, ?_⟩, ?_, ?_⟩
  · intro hok
    unfold processFoundingDate at hok
    cases hm : dateMatch s with
    | none => rw [hm] at hok; cases hok
    | some v => exact hfwd v hm
  · intro hshape
    obtain ⟨⟨y, md⟩, hv⟩ := hbwd hshape
    unfold processFoundingDate
    rw [hv]
    cases md <;> rfl
  · intro hok
    unfold processClosingDate at hok
    cases hm : dateMatch s with
    | none => rw [hm] at hok; cases hok
    | some v => exact hfwd v hm
  · intro hshape
    obtain ⟨⟨y, md⟩, hv⟩ := hbwd hshape
    unfold processClosingDate
    rw [hv]
    cases md <;> rfl
  · intro ws1 y ws2 hsplit hws1 hws2 hy4 hyd
    have hdm := dateMatch_of_shape_year s ws1 y ws2 hsplit hws1 hws2 hy4 hyd
    constructor
    · unfold processFoundingDate
      rw [hdm]
    · unfold processClosingDate
      rw [hdm]
  · intro e he
    unfold processFoundingDate at he
    cases hm : dateMatch s with
    | none =>
      rw [hm] at he
      injection he with he
      exact he.symm
    | some v =>
      obtain ⟨y, md⟩ := v
      rw [hm] at he
      cases md <;> cases he

/-- Witness for `malformed_date_characterization`: the accepted-by-the-code
and claim-rejected input `2000-00-00` does satisfy the regex shape. -/
theorem malformed_date_characterization_witness :
    DateShape "2000-00-00" :=
  (malformed_date_characterization "2000-00-00").1.mp rfl

theorem toNat_ofNat_valid (n : Nat) (h : n < 55296) :
    (Char.ofNat n).toNat = n := by
  unfold Char.ofNat
  split
  · rfl
  · rename_i h2
    exact absurd (Or.inl h) h2

theorem asciiLower_eq_of_upper (c : Char) (h : 'A' ≤ c ∧ c ≤ 'Z') :
    asciiLower c = Char.ofNat (c.toNat + 32) := by
  unfold asciiLower
  rw [if_pos h]

theorem asciiLower_eq_self (c : Char) (h : ¬ ('A' ≤ c ∧ c ≤ 'Z')) :
    asciiLower c = c := by
  unfold asciiLower
  rw [if_neg h]

theorem asciiLower_idem (c : Char) :
    asciiLower (asciiLower c) = asciiLower c := by
  by_cases h : 'A' ≤ c ∧ c ≤ 'Z'
  · rw [asciiLower_eq_of_upper c h]
    have hZ : c.toNat ≤ ('Z' : Char).toNat := h.2
    have hZv : ('Z' : Char).toNat = 90 := rfl
    have hv : (Char.ofNat (c.toNat + 32)).toNat = c.toNat + 32 :=
      toNat_ofNat_valid _ (by omega)
    apply asciiLower_eq_self
    intro hcon
    have h2 : (Char.ofNat (c.toNat + 32)).toNat ≤ ('Z' : Char).toNat := hcon.2
    have hA : ('A' : Char).toNat ≤ c.toNat := h.1
    have hAv : ('A' : Char).toNat = 65 := rfl
    omega
  · rw [asciiLower_eq_self c h, asciiLower_eq_self c h]

theorem isHostEnd_false_of_lower (v : Char) (h : 97 ≤ v.toNat) :
    isHostEnd v = false := by
  unfold isHostEnd
  simp only [Bool.or_eq_false_iff, decide_eq_false_iff_not]
  repeat' apply And.intro
  all_goals intro hcon
  all_goals (subst hcon; exact absurd h (by decide))

theorem isHostEnd_asciiLower (c : Char) (h : isHostEnd c = false) :
    isHostEnd (asciiLower c) = false := by
  by_cases hc : 'A' ≤ c ∧ c ≤ 'Z'
  · rw [asciiLower_eq_of_upper c hc]
    have hA : ('A' : Char).toNat ≤ c.toNat := hc.1
    have hZ : c.toNat ≤ ('Z' : Char).toNat := hc.2
    have hAv : ('A' : Char).toNat = 65 := rfl
    have hZv : ('Z' : Char).toNat = 90 := rfl
    have hv : (Char.ofNat (c.toNat + 32)).toNat = c.toNat + 32 :=
      toNat_ofNat_valid _ (by omega)
    exact isHostEnd_false_of_lower _ (by omega)
  · rw [asciiLower_eq_self c hc]
    exact h

/-- A character that can appear in a produced core domain: fixed under
lower-casing and not a host-terminating character. -/
def GoodChar (c : Char) : Prop :=
  asciiLower c = c ∧ isHostEnd c = false

theorem goodChar_dot : GoodChar '.' := ⟨rfl, rfl⟩

theorem goodChar_of_host (l : List Char) (c : Char) (hc : c ∈ hostOf l) :
    GoodChar c := by
  unfold hostOf at hc
  obtain ⟨c0, hc0, rfl⟩ := List.mem_map.mp hc
  have hh : isHostEnd c0 = false := by
    have := List.mem_takeWhile_imp hc0
    simpa using this
  exact ⟨asciiLower_idem c0, isHostEnd_asciiLower c0 hh⟩

theorem splitDots_ne_nil (l : List Char) : splitDots l ≠ [] := by
  cases l with
  | nil => simp [splitDots]
  | cons c r =>
    unfold splitDots
    cases hsr : splitDots r with
    | nil => simp
    | cons h t =>
      dsimp only
      split <;> simp

theorem mem_splitDots_no_dot (l : List Char) (p : List Char)
    (hp : p ∈ splitDots l) : '.' ∉ p := by
  induction l generalizing p with
  | nil =>
    simp [splitDots] at hp
    simp [hp]
  | cons c r ih =>
    unfold splitDots at hp
    cases hsr : splitDots r with
    | nil => exact absurd hsr (splitDots_ne_nil r)
    | cons h t =>
      rw [hsr] at hp
      dsimp only at hp
      by_cases hc : c = '.'
      · rw [if_pos hc] at hp
        rcases List.mem_cons.mp hp with rfl | hp2
        · simp
        · exact ih p (hsr ▸ hp2)
      · rw [if_neg hc] at hp
        rcases List.mem_cons.mp hp with rfl | hp2
        · intro hmem
          rcases List.mem_cons.mp hmem with rfl | hmem2
          · exact hc rfl
          · exact ih h (hsr ▸ List.mem_cons_self h t) hmem2
        · exact ih p (hsr ▸ List.mem_cons.mpr (Or.inr hp2))

theorem mem_mem_splitDots (l : List Char) (p : List Char) (c : Char)
    (hp : p ∈ splitDots l) (hc : c ∈ p) : c ∈ l := by
  induction l generalizing p with
  | nil =>
    simp [splitDots] at hp
    subst hp
    cases hc
  | cons a r ih =>
    unfold splitDots at hp
    cases hsr : splitDots r with
    | nil => exact absurd hsr (splitDots_ne_nil r)
    | cons h t =>
      rw [hsr] at hp
      dsimp only at hp
      by_cases ha : a = '.'
      · rw [if_pos ha] at hp
        rcases List.mem_cons.mp hp with rfl | hp2
        · cases hc
        · exact List.mem_cons.mpr (Or.inr (ih p (hsr ▸ hp2) hc))
      · rw [if_neg ha] at hp
        rcases List.mem_cons.mp hp with rfl | hp2
        · rcases List.mem_cons.mp hc with rfl | hc2
          · exact List.mem_cons_self _ _
          · exact List.mem_cons.mpr
              (Or.inr (ih h (hsr ▸ List.mem_cons_self h t) hc2))
        · exact List.mem_cons.mpr
            (Or.inr (ih p (hsr ▸ List.mem_cons.mpr (Or.inr hp2)) hc))

theorem splitDots_cons (c : Char) (r : List Char) :
    splitDots (c :: r)
      = (match splitDots r with
         | [] => [[c]]
         | h :: t => if c = '.' then [] :: h :: t else (c :: h) :: t) := rfl

theorem splitDots_dotfree_append (p t : List Char) (hp : '.' ∉ p) :
    splitDots (p ++ t)
      = (p ++ (splitDots t).headD []) :: (splitDots t).tail := by
  induction p with
  | nil =>
    simp only [List.nil_append]
    cases hst : splitDots t with
    | nil => exact absurd hst (splitDots_ne_nil t)
    | cons h t2 => simp
  | cons c p2 ih =>
    have hc : c ≠ '.' := fun hcon => hp (by simp [hcon])
    rw [List.cons_append, splitDots_cons]
    rw [ih (fun hcon => hp (by simp [hcon]))]
    dsimp only
    rw [if_neg hc]
    simp

theorem splitDots_joinDots (parts : List (List Char)) (hne : parts ≠ [])
    (hnd : ∀ p ∈ parts, '.' ∉ p) : splitDots (joinDots parts) = parts := by
  induction parts with
  | nil => exact absurd rfl hne
  | cons p rest ih =>
    cases rest with
    | nil =>
      show splitDots (joinDots [p]) = [p]
      have : joinDots [p] = p := rfl
      rw [this]
      have h1 := splitDots_dotfree_append p [] (hnd p (by simp))
      rw [List.append_nil] at h1
      simpa [splitDots] using h1
    | cons q rest2 =>
      show splitDots (p ++ '.' :: joinDots (q :: rest2)) = p :: q :: rest2
      rw [splitDots_dotfree_append p ('.' :: joinDots (q :: rest2))
        (hnd p (by simp))]
      have h2 : splitDots ('.' :: joinDots (q :: rest2))
          = [] :: splitDots (joinDots (q :: rest2)) := by
        rw [splitDots_cons]
        cases hst : splitDots (joinDots (q :: rest2)) with
        | nil => exact absurd hst (splitDots_ne_nil _)
        | cons h t =>
          dsimp only
          rw [if_pos rfl]
      rw [h2, ih (by simp) (fun x hx => hnd x (by simp [hx]))]
      simp

theorem joinDots_cons (p : List Char) (rest : List (List Char))
    (h : rest ≠ []) : joinDots (p :: rest) = p ++ '.' :: joinDots rest := by
  cases rest with
  | nil => exact absurd rfl h
  | cons q r2 => rfl

theorem mem_joinDots (parts : List (List Char)) (c : Char)
    (hc : c ∈ joinDots parts) : c = '.' ∨ ∃ p ∈ parts, c ∈ p := by
  induction parts with
  | nil => cases hc
  | cons p rest ih =>
    cases rest with
    | nil => exact Or.inr ⟨p, by simp, hc⟩
    | cons q r2 =>
      rw [joinDots_cons p _ (by simp)] at hc
      rcases List.mem_append.mp hc with h1 | h2
      · exact Or.inr ⟨p, by simp, h1⟩
      · rcases List.mem_cons.mp h2 with rfl | h3
        · exact Or.inl rfl
        · rcases ih h3 with h4 | ⟨x, hx1, hx2⟩
          · exact Or.inl h4
          · exact Or.inr ⟨x, by simp [hx1], hx2⟩

theorem mapSelf {α : Type} (f : α → α) (l : List α)
    (h : ∀ a ∈ l, f a = a) : l.map f = l := by
  induction l with
  | nil => rfl
  | cons a t ih =>
    rw [List.map_cons, h a (by simp), ih (fun x hx => h x (by simp [hx]))]

theorem bsf_some (psl : List (List (List Char))) (labels : List (List Char))
    (b k : Nat) (h : bestSuffixFrom psl labels b = some k) :
    1 ≤ k ∧ k ≤ b ∧ labels.drop (labels.length - k) ∈ psl := by
  induction b with
  | zero => cases h
  | succ b ih =>
    unfold bestSuffixFrom at h
    split at h
    · injection h with h
      subst h
      rename_i hmem
      exact ⟨by omega, le_refl _, hmem⟩
    · obtain ⟨h1, h2, h3⟩ := ih h
      exact ⟨h1, by omega, h3⟩

theorem bsf_maximal (psl : List (List (List Char)))
    (labels : List (List Char)) (b k : Nat)
    (h : bestSuffixFrom psl labels b = some k) :
    ∀ j, k < j → j ≤ b → labels.drop (labels.length - j) ∉ psl := by
  induction b with
  | zero => cases h
  | succ b ih =>
    unfold bestSuffixFrom at h
    split at h
    · injection h with h
      subst h
      intro j hj1 hj2
      omega
    · rename_i hmem
      intro j hj1 hj2
      by_cases hje : j = b + 1
      · subst hje
        exact hmem
      · exact ih h j hj1 (by omega)

theorem bsf_complete (psl : List (List (List Char)))
    (labels : List (List Char)) (b k : Nat) (hk1 : 1 ≤ k) (hk2 : k ≤ b)
    (hmem : labels.drop (labels.length - k) ∈ psl)
    (hmax : ∀ j, k < j → j ≤ b → labels.drop (labels.length - j) ∉ psl) :
    bestSuffixFrom psl labels b = some k := by
  induction b with
  | zero => omega
  | succ b ih =>
    unfold bestSuffixFrom
    by_cases hbk : k = b + 1
    · subst hbk
      rw [if_pos hmem]
    · rw [if_neg (hmax (b + 1) (by omega) (le_refl _))]
      exact ih (by omega) (fun j hj1 hj2 => hmax j hj1 (by omega))

theorem stripScheme_eq_self (l : List Char) (h : ∀ c ∈ l, c ≠ ':') :
    stripScheme l = l := by
  unfold stripScheme
  cases hdw : l.dropWhile (· ≠ ':') with
  | nil => rfl
  | cons c r =>
    have hmem : c ∈ l :=
      List.Sublist.subset (List.dropWhile_sublist (· ≠ ':')) (hdw ▸ List.mem_cons_self c r)
    have hcc := dropWhile_head_not _ l c (by rw [hdw]; rfl)
    simp at hcc
    exact absurd hcc (h c hmem)

theorem hostOf_eq_self (d : List Char) (hdgood : ∀ c ∈ d, GoodChar c) :
    hostOf d = d := by
  unfold hostOf
  rw [stripScheme_eq_self d (fun c hc hcon => by
    have := (hdgood c hc).2
    rw [hcon] at this
    cases this)]
  rw [List.takeWhile_eq_self_iff.mpr (fun a ha => by
    simp [(hdgood a ha).2])]
  exact mapSelf asciiLower d (fun a ha => (hdgood a ha).1)

theorem coreDomain_fixed (psl : List (List (List Char))) (pd : List Char)
    (rest : List (List Char)) (hrestne : rest ≠ [])
    (hgood : ∀ c ∈ pd ++ '.' :: joinDots rest, GoodChar c)
    (hdf : ∀ p ∈ pd :: rest, '.' ∉ p)
    (hmem : rest ∈ psl) (hnotall : pd :: rest ∉ psl) :
    coreDomain psl (pd ++ '.' :: joinDots rest)
      = some (pd ++ '.' :: joinDots rest) := by
  have hjd : joinDots (pd :: rest) = pd ++ '.' :: joinDots rest :=
    joinDots_cons pd rest hrestne
  have hhost : hostOf (pd ++ '.' :: joinDots rest)
      = pd ++ '.' :: joinDots rest := hostOf_eq_self _ hgood
  have hsplit : splitDots (pd ++ '.' :: joinDots rest) = pd :: rest := by
    rw [← hjd]
    exact splitDots_joinDots _ (by simp) hdf
  have hrlen : 1 ≤ rest.length := by
    cases rest with
    | nil => exact absurd rfl hrestne
    | cons a b => simp
  have hbs : bestSuffix psl (pd :: rest) = some rest.length := by
    unfold bestSuffix
    apply bsf_complete
    · exact hrlen
    · simp
    · have h1 : (pd :: rest).length - rest.length = 1 := by simp
      rw [h1]
      simpa using hmem
    · intro j hj1 hj2
      simp only [List.length_cons] at hj2
      have hje : j = rest.length + 1 := by omega
      subst hje
      have h0 : (pd :: rest).length - (rest.length + 1) = 0 := by simp
      rw [h0]
      simpa using hnotall
  unfold coreDomain
  rw [hhost, hsplit]
  dsimp only
  rw [hbs]
  dsimp only
  have h1 : (pd :: rest).length - rest.length = 1 := by simp
  rw [h1]
  rfl

/-- C8: `DomainChecker.core_domain` is idempotent — applying it to one of its
own outputs returns that output unchanged — provided no public-suffix entry
contains an empty label (true of the real public suffix list). -/
theorem core_domain_idempotent (psl : List (List (List Char))) (u d : List Char)
    (hpsl : ∀ e ∈ psl, [] ∉ e) (h : coreDomain psl u = some d) :
    coreDomain psl d = some d := by
  unfold coreDomain at h
  dsimp only at h
  cases hbs : bestSuffix psl (splitDots (hostOf u)) with
  | none => rw [hbs] at h; cases h
  | some k =>
    rw [hbs] at h
    dsimp only at h
    injection h with h
    unfold bestSuffix at hbs
    set L := splitDots (hostOf u) with hL
    obtain ⟨hk1, hk2, hkmem⟩ := bsf_some psl L L.length k hbs
    have hmax := bsf_maximal psl L L.length k hbs
    have hLgood : ∀ p ∈ L, ∀ c ∈ p, GoodChar c := by
      intro p hp c hc
      exact goodChar_of_host u c (mem_mem_splitDots (hostOf u) p c (hL ▸ hp) hc)
    have hLdf : ∀ p ∈ L, '.' ∉ p := fun p hp =>
      mem_splitDots_no_dot (hostOf u) p (hL ▸ hp)
    have hrlen : (L.drop (L.length - k)).length = k := by
      rw [List.length_drop]
      omega
    have hrestne : L.drop (L.length - k) ≠ [] := by
      intro hcon
      rw [hcon] at hrlen
      simp at hrlen
      omega
    by_cases hge : 1 ≤ L.length - k
    · rw [if_pos hge] at h
      have hidx : L.length - k - 1 < L.length := by omega
      have hpdm : L.getD (L.length - k - 1) [] ∈ L := by
        rw [List.getD_eq_getElem L [] hidx]
        exact List.getElem_mem hidx
      rw [← h]
      apply coreDomain_fixed
      · exact hrestne
      · intro c hc
        rcases List.mem_append.mp hc with h1 | h2
        · exact hLgood _ hpdm c h1
        · rcases List.mem_cons.mp h2 with rfl | h3
          · exact goodChar_dot
          · rcases mem_joinDots _ c h3 with rfl | ⟨p, hp1, hp2⟩
            · exact goodChar_dot
            · exact hLgood p (List.mem_of_mem_drop hp1) c hp2
      · intro p hp
        rcases List.mem_cons.mp hp with rfl | h3
        · exact hLdf _ hpdm
        · exact hLdf p (List.mem_of_mem_drop h3)
      · exact hkmem
      · intro hcon
        have hdropcons : L.getD (L.length - k - 1) [] :: L.drop (L.length - k)
            = L.drop (L.length - k - 1) := by
          rw [List.getD_eq_getElem L [] hidx]
          rw [List.drop_eq_getElem_cons hidx]
          have he : L.length - k - 1 + 1 = L.length - k := by omega
          rw [he]
        rw [hdropcons] at hcon
        have he2 : L.length - (k + 1) = L.length - k - 1 := by omega
        exact hmax (k + 1) (by omega) (by omega) (by rw [he2]; exact hcon)
    · rw [if_neg hge] at h
      rw [← h]
      apply coreDomain_fixed
      · exact hrestne
      · intro c hc
        rcases List.mem_append.mp hc with h1 | h2
        · cases h1
        · rcases List.mem_cons.mp h2 with rfl | h3
          · exact goodChar_dot
          · rcases mem_joinDots _ c h3 with rfl | ⟨p, hp1, hp2⟩
            · exact goodChar_dot
            · exact hLgood p (List.mem_of_mem_drop hp1) c hp2
      · intro p hp
        rcases List.mem_cons.mp hp with rfl | h3
        · simp
        · exact hLdf p (List.mem_of_mem_drop h3)
      · exact hkmem
      · intro hcon
        exact hpsl _ hcon (List.mem_cons_self _ _)

theorem core_domain_idempotent_witness :
    coreDomain [["org".data]] "example.org".data = some "example.org".data :=
  core_domain_idempotent [["org".data]] "http://www.Example.org/x".data
    "example.org".data (by decide) rfl
